import Mathlib

/-!
Shallow embedding of the path tracer (`src/main.cpp`, `src/camera.h`).

The C++ `float` is modelled by an arbitrary linearly ordered field `F`
(exact arithmetic, no rounding, no NaN); the C library functions and
constants the program uses (`sqrt`, `cos`, `sin`, `tan`, `M_PI`, `MAXFLOAT`)
are the fields of a `libm F` value that every definition takes as a
parameter.  `drand48()` is modelled by a stream `rng : Nat → F` read at a
position that is threaded through the code.
-/

namespace Raytracer

/-- The C library functions and constants used by the program. -/
structure libm (F : Type) where
  sqrt : F → F
  cos : F → F
  sin : F → F
  tan : F → F
  M_PI : F
  MAXFLOAT : F

/-- Modelled from the spec: `vec3.h` is not among the sources; a `vec3` is
"three real components (x,y,z)" with the usual component-wise algebra. -/
@[ext] structure vec3 (F : Type) where
  e0 : F
  e1 : F
  e2 : F
deriving DecidableEq

/-- Modelled from the spec: `ray.h` is not among the sources; a ray is
`(origin, direction)`. -/
@[ext] structure ray (F : Type) where
  origin : vec3 F
  direction : vec3 F
deriving DecidableEq

section VecOps

variable {F : Type} [LinearOrderedField F]

namespace vec3

def x (v : vec3 F) : F := v.e0
def y (v : vec3 F) : F := v.e1
def z (v : vec3 F) : F := v.e2

instance : Zero (vec3 F) := ⟨⟨0, 0, 0⟩⟩
instance : Add (vec3 F) := ⟨fun a b => ⟨a.e0 + b.e0, a.e1 + b.e1, a.e2 + b.e2⟩⟩
instance : Sub (vec3 F) := ⟨fun a b => ⟨a.e0 - b.e0, a.e1 - b.e1, a.e2 - b.e2⟩⟩
instance : Neg (vec3 F) := ⟨fun a => ⟨-a.e0, -a.e1, -a.e2⟩⟩
/-- Component-wise product `v1 * v2`. -/
instance : Mul (vec3 F) := ⟨fun a b => ⟨a.e0 * b.e0, a.e1 * b.e1, a.e2 * b.e2⟩⟩
/-- Scalar product `t * v`. -/
instance : HMul F (vec3 F) (vec3 F) := ⟨fun t v => ⟨t * v.e0, t * v.e1, t * v.e2⟩⟩
/-- Division by a scalar `v / t`. -/
instance : HDiv (vec3 F) F (vec3 F) := ⟨fun v t => ⟨v.e0 / t, v.e1 / t, v.e2 / t⟩⟩

instance : AddCommGroup (vec3 F) where
  add_assoc a b c := vec3.ext (add_assoc _ _ _) (add_assoc _ _ _) (add_assoc _ _ _)
  zero_add a := vec3.ext (zero_add _) (zero_add _) (zero_add _)
  add_zero a := vec3.ext (add_zero _) (add_zero _) (add_zero _)
  nsmul := nsmulRec
  zsmul := zsmulRec
  neg_add_cancel a := vec3.ext (neg_add_cancel _) (neg_add_cancel _) (neg_add_cancel _)
  add_comm a b := vec3.ext (add_comm _ _) (add_comm _ _) (add_comm _ _)
  sub_eq_add_neg a b := vec3.ext (sub_eq_add_neg _ _) (sub_eq_add_neg _ _) (sub_eq_add_neg _ _)

def dot (a b : vec3 F) : F := a.e0 * b.e0 + a.e1 * b.e1 + a.e2 * b.e2

def cross (a b : vec3 F) : vec3 F :=
  ⟨a.e1 * b.e2 - a.e2 * b.e1, -(a.e0 * b.e2 - a.e2 * b.e0), a.e0 * b.e1 - a.e1 * b.e0⟩

def squared_length (v : vec3 F) : F := v.e0 * v.e0 + v.e1 * v.e1 + v.e2 * v.e2

def length (m : libm F) (v : vec3 F) : F := m.sqrt (v.e0 * v.e0 + v.e1 * v.e1 + v.e2 * v.e2)

def unit_vector (m : libm F) (v : vec3 F) : vec3 F := v / v.length m

end vec3

open vec3

/-- The stored material of a Lambertian surface. -/
structure lambertian (F : Type) where
  albedo : vec3 F

/-- The stored fields of a metal. -/
structure metal (F : Type) where
  fuzz : F
  albedo : vec3 F

/-- The stored field of a dielectric. -/
structure dielectric (F : Type) where
  ref_idx : F

/-- The `material*` of a hit record: the three subclasses of `material`
defined in `main.cpp`. -/
inductive material (F : Type) where
  | lambertian : lambertian F → material F
  | metal : metal F → material F
  | dielectric : dielectric F → material F

/-- Modelled from the spec: `hitable.h` is not among the sources; a hit record
is `(t, point, normal, material)`. -/
structure hit_record (F : Type) where
  t : F
  p : vec3 F
  normal : vec3 F
  mat_ptr : material F

/-- A `hitable*`: `hit(r, t_min, t_max, rec)` either fails or fills `rec`. -/
abbrev hitable (F : Type) := ray F → F → F → Option (hit_record F)

/-- What `scatter` leaves behind: its return value and its two
out-parameters. -/
structure scatter_result (F : Type) where
  ok : Bool
  attenuation : vec3 F
  scattered : ray F

def MAX_DEPTH : Int := 50
def SAMPLES_PER_PIXEL : Int := 1

/-- The function `random_in_unit_sphere`: the `do ... while` loop run for at
most `fuel` iterations, reading `drand48()` from `rng` at position `i` (the
three calls of one iteration read the stream left to right). Returns the
accepted point and the next position of the stream; `none` when the fuel runs
out before a point is accepted. -/
def random_in_unit_sphere (rng : Nat → F) : Nat → Nat → Option (vec3 F × Nat)
  | 0, _ => none
  | fuel + 1, i =>
    let p : vec3 F := (2 : F) * (⟨rng i, rng (i + 1), rng (i + 2)⟩ : vec3 F) - ⟨1, 1, 1⟩
    if p.squared_length ≥ 1 then random_in_unit_sphere rng fuel (i + 3)
    else some (p, i + 3)

def lambertian.scatter (self : lambertian F) (rng : Nat → F) (fuel : Nat)
    (_r_in : ray F) (rec : hit_record F) (i : Nat) : Option (scatter_result F × Nat) :=
  match random_in_unit_sphere rng fuel i with
  | none => none
  | some (q, j) =>
    let target := rec.p + rec.normal + q
    some (⟨true, self.albedo, ⟨rec.p, target - rec.p⟩⟩, j)

def refract (m : libm F) (v n : vec3 F) (ni_over_nt : F) (refracted : vec3 F) :
    Bool × vec3 F :=
  let uv := unit_vector m v
  let dt := dot uv n
  let discriminant := 1 - ni_over_nt * ni_over_nt * (1 - dt * dt)
  if discriminant > 0 then
    (true, ni_over_nt * (uv - dt * n) - m.sqrt discriminant * n)
  else (false, refracted)

def reflect (v n : vec3 F) : vec3 F := v - (2 * dot v n) * n

/-- The constructor `metal(a, f)`. -/
def metal.new (a : vec3 F) (f : F) : metal F :=
  ⟨if f < 1 then f else 1, a⟩

def metal.scatter (self : metal F) (m : libm F) (rng : Nat → F) (fuel : Nat)
    (r_in : ray F) (rec : hit_record F) (i : Nat) : Option (scatter_result F × Nat) :=
  let reflected := reflect (unit_vector m r_in.direction) rec.normal
  match random_in_unit_sphere rng fuel i with
  | none => none
  | some (q, j) =>
    let scattered : ray F := ⟨rec.p, reflected + self.fuzz * q⟩
    some (⟨decide (dot scattered.direction rec.normal > 0), self.albedo, scattered⟩, j)

def schlick (cosine ref_idx : F) : F :=
  let r0 := (1 - ref_idx) / (1 + ref_idx)
  let r0 := r0 * r0
  r0 + (1 - r0) * (1 - cosine) ^ 5

/-- The method `dielectric::scatter`. The local `refracted` is declared without an
initial value; `refracted0` stands for whatever it holds. -/
def dielectric.scatter (self : dielectric F) (m : libm F) (rng : Nat → F)
    (refracted0 : vec3 F) (r_in : ray F) (rec : hit_record F) (i : Nat) :
    scatter_result F × Nat :=
  let reflected := reflect r_in.direction rec.normal
  let attenuation : vec3 F := ⟨1, 1, 1⟩
  let (outward_normal, ni_over_nt, cosine) :=
    if dot r_in.direction rec.normal > 0 then
      (-rec.normal, self.ref_idx,
        self.ref_idx * dot r_in.direction rec.normal / r_in.direction.length m)
    else
      (rec.normal, 1 / self.ref_idx,
        -dot r_in.direction rec.normal / r_in.direction.length m)
  let (refracts, refracted) := refract m r_in.direction outward_normal ni_over_nt refracted0
  let reflect_prob := if refracts then schlick cosine self.ref_idx else 1
  let scattered : ray F :=
    if rng i < reflect_prob then ⟨rec.p, reflected⟩ else ⟨rec.p, refracted⟩
  (⟨true, attenuation, scattered⟩, i + 1)

/-- The virtual call `rec.mat_ptr->scatter(...)`. -/
def material.scatter (mat : material F) (m : libm F) (rng : Nat → F) (fuel : Nat)
    (refracted0 : vec3 F) (r_in : ray F) (rec : hit_record F) (i : Nat) :
    Option (scatter_result F × Nat) :=
  match mat with
  | .lambertian l => l.scatter rng fuel r_in rec i
  | .metal mt => mt.scatter m rng fuel r_in rec i
  | .dielectric d => some (d.scatter m rng refracted0 r_in rec i)

/-- The function `color(r, world, depth)`, threading the position in the random
stream; `none` when a rejection loop of a `scatter` call runs out of fuel. -/
def color (m : libm F) (rng : Nat → F) (fuel : Nat) (refracted0 : vec3 F)
    (world : hitable F) (r : ray F) (depth : Int) (i : Nat) : Option (vec3 F × Nat) :=
  match world r 0.001 m.MAXFLOAT with
  | some rec =>
    if _h : depth < MAX_DEPTH then
      match rec.mat_ptr.scatter m rng fuel refracted0 r rec i with
      | none => none
      | some (s, j) =>
        if s.ok then
          match color m rng fuel refracted0 world s.scattered (depth + 1) j with
          | none => none
          | some (c, k) => some (s.attenuation * c, k)
        else some (⟨0, 0, 0⟩, j)
    else some (⟨0, 0, 0⟩, i)
  | none =>
    let unit_direction := unit_vector m r.direction
    let t := 0.5 * (unit_direction.y + 1.0)
    some ((1.0 - t) * (⟨1.0, 1.0, 1.0⟩ : vec3 F) + t * (⟨0.5, 0.7, 1.0⟩ : vec3 F), i)
termination_by (MAX_DEPTH - depth).toNat
decreasing_by
  simp only [MAX_DEPTH] at *
  omega

/-- The fields of `class camera`. -/
structure camera (F : Type) where
  origin : vec3 F
  lower_left_corner : vec3 F
  horizontal : vec3 F
  vertical : vec3 F
  u : vec3 F
  v : vec3 F
  w : vec3 F
  front : vec3 F
  right : vec3 F
  up : vec3 F
  world_up : vec3 F
  yaw : F
  pitch : F

namespace camera

def update_camera_vectors (m : libm F) (c : camera F) : camera F :=
  let front_temp : vec3 F :=
    ⟨m.cos (c.yaw * m.M_PI / 180.0) * m.cos (c.pitch * m.M_PI / 180.0),
     m.sin (c.pitch * m.M_PI / 180.0),
     m.sin (c.yaw * m.M_PI / 180.0) * m.cos (c.pitch * m.M_PI / 180.0)⟩
  let front := unit_vector m front_temp
  let right := unit_vector m (cross front c.world_up)
  let up := unit_vector m (cross right front)
  let vfov : F := 90.0
  let aspect : F := 2.0
  let theta := vfov * m.M_PI / 180.0
  let half_height := m.tan (theta / 2)
  let half_width := aspect * half_height
  { c with
    front := front
    right := right
    up := up
    lower_left_corner := c.origin - half_width * right - half_height * up - front
    horizontal := (2 * half_width) * right
    vertical := (2 * half_height) * up }

/-- The constructor `camera(lookfrom, lookat, vup, vfov, aspect)`. Every field
is assigned before the constructor returns; the fields not yet assigned when
`update_camera_vectors` runs are written as zero here. -/
def new (m : libm F) (lookfrom lookat vup : vec3 F) (vfov aspect : F) : camera F :=
  let c0 : camera F :=
    { origin := lookfrom, world_up := vup, yaw := -90.0, pitch := 0.0,
      lower_left_corner := 0, horizontal := 0, vertical := 0, u := 0, v := 0, w := 0,
      front := 0, right := 0, up := 0 }
  let c := update_camera_vectors m c0
  let theta := vfov * m.M_PI / 180.0
  let half_height := m.tan (theta / 2)
  let half_width := aspect * half_height
  let w := unit_vector m (lookfrom - lookat)
  let u := unit_vector m (cross vup w)
  let v := cross w u
  { c with
    w := w
    u := u
    v := v
    lower_left_corner := c.origin - half_width * u - half_height * v - w
    horizontal := (2 * half_width) * u
    vertical := (2 * half_height) * v }

def get_ray (c : camera F) (s t : F) : ray F :=
  ⟨c.origin, c.lower_left_corner + s * c.horizontal + t * c.vertical - c.origin⟩

/-- The method `process_keyboard(direction, velocity)`: the return value and the camera
after the call. -/
def process_keyboard (m : libm F) (c : camera F) (direction : Int) (velocity : F) :
    Bool × camera F :=
  let moved := false
  let (c, moved) :=
    if direction = 0 then ({ c with origin := c.origin - velocity * c.front }, true)
    else (c, moved)
  let (c, moved) :=
    if direction = 1 then ({ c with origin := c.origin + velocity * c.front }, true)
    else (c, moved)
  let (c, moved) :=
    if direction = 2 then ({ c with origin := c.origin - velocity * c.right }, true)
    else (c, moved)
  let (c, moved) :=
    if direction = 3 then ({ c with origin := c.origin + velocity * c.right }, true)
    else (c, moved)
  let (c, moved) :=
    if direction = 4 then ({ c with origin := c.origin + velocity * c.world_up }, true)
    else (c, moved)
  let (c, moved) :=
    if direction = 5 then ({ c with origin := c.origin - velocity * c.world_up }, true)
    else (c, moved)
  let c := if moved then update_camera_vectors m c else c
  (moved, c)

/-- The method `process_mouse(xoffset, yoffset)`: the return value and the camera after
the call. -/
def process_mouse (m : libm F) (c : camera F) (xoffset yoffset : F) : Bool × camera F :=
  if xoffset = 0 ∧ yoffset = 0 then (false, c)
  else
    let xoffset := xoffset * 0.1
    let yoffset := yoffset * 0.1
    let c := { c with yaw := c.yaw - xoffset }
    let c := { c with pitch := c.pitch - yoffset }
    let c := if c.pitch > 89.0 then { c with pitch := 89.0 } else c
    let c := if c.pitch < -89.0 then { c with pitch := -89.0 } else c
    (true, update_camera_vectors m c)

end camera

def SCREEN_WIDTH : Nat := 1200
def SCREEN_HEIGHT : Nat := 600

/-- The part of the state of `main` that the frame loop accumulates into:
`accumulation_buffer` and `total_samples`, and, for each pixel index, the
`accumulated_col` last computed for it (the value that is then gamma-corrected,
quantised and written to `pixels`). The `int` counter is a mathematical
integer here: `total_samples++` overflows only after `2^31 - 1` frames without
a reset. -/
structure frame_state (F : Type) where
  accumulation_buffer : Nat → vec3 F
  total_samples : Int
  accumulated_col : Nat → vec3 F

/-- What one iteration of `while (!quit)` receives: for every `SDL_MOUSEMOTION`
event polled, the value returned by `cam.process_mouse`; the flag `moved` after
the six key tests; and for the pixel `(i, j)` the sum `col` of the colours
traced for it in this frame. -/
structure frame_input (F : Type) where
  mouse : List Bool
  moved : Bool
  col : Nat → Nat → vec3 F

/-- The camera-changed flag of a frame: some `process_mouse` call of the frame
returned true, or `moved` was set. -/
def frame_input.changed (inp : frame_input F) : Bool :=
  inp.mouse.any id || inp.moved

/-- The state before the first frame. -/
def frame_state.init : frame_state F :=
  ⟨fun _ => 0, 0, fun _ => 0⟩

/-- The reset `std::fill(accumulation_buffer, vec3(0,0,0)); total_samples = 0;`. -/
def frame_state.reset (st : frame_state F) : frame_state F :=
  { st with accumulation_buffer := fun _ => ⟨0, 0, 0⟩, total_samples := 0 }

/-- The `SDL_PollEvent` loop, as far as it touches the accumulation state. -/
def poll_events (st : frame_state F) : List Bool → frame_state F
  | [] => st
  | changed :: rest => poll_events (if changed then st.reset else st) rest

/-- The body of the two pixel loops for the pixel `(i, j)`, up to
`accumulated_col`. -/
def render_pixel (W H : Nat) (col : Nat → Nat → vec3 F) (st : frame_state F) (j i : Nat) :
    frame_state F :=
  let pixel_index := (H - 1 - j) * W + i
  let buf := Function.update st.accumulation_buffer pixel_index
    (st.accumulation_buffer pixel_index + col i j)
  let accumulated_col := buf pixel_index / ((st.total_samples * SAMPLES_PER_PIXEL : Int) : F)
  { st with
    accumulation_buffer := buf
    accumulated_col := Function.update st.accumulated_col pixel_index accumulated_col }

/-- The render loops: `j` from `H - 1` down to `0`, `i` from `0` to `W - 1`. -/
def render (W H : Nat) (col : Nat → Nat → vec3 F) (st : frame_state F) : frame_state F :=
  (List.range H).reverse.foldl
    (fun st j => (List.range W).foldl (fun st i => render_pixel W H col st j i) st) st

/-- One iteration of the frame loop of `main`. -/
def frame (st : frame_state F) (inp : frame_input F) : frame_state F :=
  let st := poll_events st inp.mouse
  let st := if inp.moved then st.reset else st
  let st := { st with total_samples := st.total_samples + 1 }
  render SCREEN_WIDTH SCREEN_HEIGHT inp.col st

/-- The frame loop run on a sequence of frames. -/
def run_frames (st : frame_state F) (inps : List (frame_input F)) : frame_state F :=
  inps.foldl frame st

/-- A call made on the camera after its construction. -/
inductive camera_call (F : Type) where
  | keyboard (direction : Int) (velocity : F)
  | mouse (xoffset yoffset : F)

/-- The camera after one call. -/
def camera.call (m : libm F) (c : camera F) : camera_call F → camera F
  | .keyboard direction velocity => (c.process_keyboard m direction velocity).2
  | .mouse xoffset yoffset => (c.process_mouse m xoffset yoffset).2

/-- The camera after a sequence of calls, first call first. -/
def camera.run (m : libm F) (c : camera F) (calls : List (camera_call F)) : camera F :=
  calls.foldl (camera.call m) c

/-- The conversion `int(x)` of a `float`: truncation toward zero. -/
def to_int [FloorRing F] (x : F) : Int :=
  if 0 ≤ x then ⌊x⌋ else ⌈x⌉

/-- The conversion of an `int` to `uint32_t`: the value modulo `2^32`. -/
def to_uint32 (n : Int) : Nat :=
  (n % 4294967296).toNat

/-- The end of the pixel loop body (`main.cpp`, gamma, quantise, ARGB pack): the
`uint32_t` written to `pixels[pixel_index]` for the average `accumulated_col`.
The `int` expression is evaluated over the integers and reduced modulo `2^32`
by the conversion, which gives the low 32 bits that 32-bit `int` arithmetic
gives. -/
def pack_pixel [FloorRing F] (m : libm F) (accumulated_col : vec3 F) : Nat :=
  let col := accumulated_col
  let col : vec3 F := ⟨m.sqrt col.e0, m.sqrt col.e1, m.sqrt col.e2⟩
  let ir := to_int (255.99 * col.e0)
  let ig := to_int (255.99 * col.e1)
  let ib := to_int (255.99 * col.e2)
  to_uint32 (Int.lor (Int.lor (Int.lor ((255 : Int) <<< (24 : Int)) (ir <<< (16 : Int)))
    (ig <<< (8 : Int))) ib)

/-- Modelled from the spec: `ray.h` is not among the sources; the "parametrized
point = origin + t·direction". -/
def ray.point_at_parameter (r : ray F) (t : F) : vec3 F :=
  r.origin + t * r.direction

/-- Modelled from the spec: `sphere.h` is not among the sources; the variant
`Sphere { center, radius, material }`. -/
structure sphere (F : Type) where
  center : vec3 F
  radius : F
  mat_ptr : material F

/-- Modelled from the spec: `sphere.h` is not among the sources. "Solve the
quadratic `|origin + t·dir − center|² = radius²`; of the (up to two) real roots
in `(t_min, t_max)`, select the smaller (nearest) one; if none lie in range,
report no hit. On success populate the hit record's point, outward unit normal
`(point − center)/radius`, and a reference to the sphere's material." A
discriminant `≤ 0` is no hit. -/
def sphere.hit (m : libm F) (s : sphere F) (r : ray F) (t_min t_max : F) :
    Option (hit_record F) :=
  let oc := r.origin - s.center
  let a := dot r.direction r.direction
  let b := dot oc r.direction
  let c := dot oc oc - s.radius * s.radius
  let discriminant := b * b - a * c
  if discriminant > 0 then
    let temp := (-b - m.sqrt discriminant) / a
    if temp < t_max ∧ temp > t_min then
      some ⟨temp, r.point_at_parameter temp,
        (r.point_at_parameter temp - s.center) / s.radius, s.mat_ptr⟩
    else
      let temp := (-b + m.sqrt discriminant) / a
      if temp < t_max ∧ temp > t_min then
        some ⟨temp, r.point_at_parameter temp,
          (r.point_at_parameter temp - s.center) / s.radius, s.mat_ptr⟩
      else none
  else none

/-- Modelled from the spec: `hitable_list.h` is not among the sources. "Iterate
every member geometry, track the closest valid hit by shrinking the search
upper bound to the best `t` found so far; return the single closest hit record
or none." -/
def hitable_list.hit (m : libm F) (list : List (sphere F)) : hitable F :=
  fun r t_min t_max =>
    (list.foldl
      (fun (acc : Option (hit_record F) × F) s =>
        match s.hit m r t_min acc.2 with
        | some rec => (some rec, rec.t)
        | none => acc)
      (none, t_max)).1

/-- The sphere `list[0]` of `main`: the ground. -/
def ground_sphere : sphere F :=
  ⟨⟨0, -100.5, -1⟩, 100, material.lambertian ⟨⟨0.8, 0.8, 0.8⟩⟩⟩

/-- The sphere `list[1]` of `main`. -/
def left_sphere : sphere F :=
  ⟨⟨-0.6, 0, -1⟩, 0.5, material.lambertian ⟨⟨0.05, 0.05, 0.05⟩⟩⟩

/-- The sphere `list[2]` of `main`: the metal sphere, fuzz 0. -/
def metal_sphere : sphere F :=
  ⟨⟨0.6, 0, -1⟩, 0.5, material.metal (metal.new ⟨0.1, 0.1, 0.1⟩ 0.0)⟩

/-- The three spheres that `main` puts into `world`. -/
def main_scene : List (sphere F) :=
  [ground_sphere, left_sphere, metal_sphere]

/-- The camera that `main` constructs: `lookfrom (0,0,0)`, `lookat (0,0,-1)`,
`vup (0,1,0)`, `vfov 90`, aspect `1200 / 600`. -/
def main_camera (m : libm F) : camera F :=
  camera.new m ⟨0, 0, 0⟩ ⟨0, 0, -1⟩ ⟨0, 1, 0⟩ 90 ((SCREEN_WIDTH : F) / (SCREEN_HEIGHT : F))

/-- Every component of the vector lies in `[0, 1]`. -/
def vec3.in_unit_range (v : vec3 F) : Prop :=
  (0 ≤ v.e0 ∧ v.e0 ≤ 1) ∧ (0 ≤ v.e1 ∧ v.e1 ≤ 1) ∧ (0 ≤ v.e2 ∧ v.e2 ≤ 1)

/-- The material is a Lambertian or a metal whose albedo components all lie in
`[0, 1]`, or a dielectric. -/
def material.albedo_in_unit_range : material F → Prop
  | .lambertian l => l.albedo.in_unit_range
  | .metal mt => mt.albedo.in_unit_range
  | .dielectric _ => True

/-- The value of the local `cosine` of `dielectric::scatter` after the test of
`dot(r_in.direction(), rec.normal) > 0`. -/
def dielectric.cosine (self : dielectric F) (m : libm F) (r_in : ray F) (rec : hit_record F) :
    F :=
  if dot r_in.direction rec.normal > 0 then
    self.ref_idx * dot r_in.direction rec.normal / r_in.direction.length m
  else
    -dot r_in.direction rec.normal / r_in.direction.length m

/-- The value of the local `reflect_prob` of `dielectric::scatter` when it is
compared with `drand48()`. -/
def dielectric.reflect_prob (self : dielectric F) (m : libm F) (refracted0 : vec3 F)
    (r_in : ray F) (rec : hit_record F) : F :=
  let (outward_normal, ni_over_nt) :=
    if dot r_in.direction rec.normal > 0 then (-rec.normal, self.ref_idx)
    else (rec.normal, 1 / self.ref_idx)
  if (refract m r_in.direction outward_normal ni_over_nt refracted0).1 then
    schlick (self.cosine m r_in rec) self.ref_idx
  else 1

end VecOps

end Raytracer

namespace Raytracer

open vec3

section Lemmas

variable {F : Type} [LinearOrderedField F]

@[simp] theorem vec3.add_e0 (a b : vec3 F) : (a + b).e0 = a.e0 + b.e0 := rfl
@[simp] theorem vec3.add_e1 (a b : vec3 F) : (a + b).e1 = a.e1 + b.e1 := rfl
@[simp] theorem vec3.add_e2 (a b : vec3 F) : (a + b).e2 = a.e2 + b.e2 := rfl
@[simp] theorem vec3.sub_e0 (a b : vec3 F) : (a - b).e0 = a.e0 - b.e0 := rfl
@[simp] theorem vec3.sub_e1 (a b : vec3 F) : (a - b).e1 = a.e1 - b.e1 := rfl
@[simp] theorem vec3.sub_e2 (a b : vec3 F) : (a - b).e2 = a.e2 - b.e2 := rfl
@[simp] theorem vec3.neg_e0 (a : vec3 F) : (-a).e0 = -a.e0 := rfl
@[simp] theorem vec3.neg_e1 (a : vec3 F) : (-a).e1 = -a.e1 := rfl
@[simp] theorem vec3.neg_e2 (a : vec3 F) : (-a).e2 = -a.e2 := rfl
@[simp] theorem vec3.mul_e0 (a b : vec3 F) : (a * b).e0 = a.e0 * b.e0 := rfl
@[simp] theorem vec3.mul_e1 (a b : vec3 F) : (a * b).e1 = a.e1 * b.e1 := rfl
@[simp] theorem vec3.mul_e2 (a b : vec3 F) : (a * b).e2 = a.e2 * b.e2 := rfl
@[simp] theorem vec3.smul_e0 (t : F) (a : vec3 F) : (t * a).e0 = t * a.e0 := rfl
@[simp] theorem vec3.smul_e1 (t : F) (a : vec3 F) : (t * a).e1 = t * a.e1 := rfl
@[simp] theorem vec3.smul_e2 (t : F) (a : vec3 F) : (t * a).e2 = t * a.e2 := rfl
@[simp] theorem vec3.div_e0 (a : vec3 F) (t : F) : (a / t).e0 = a.e0 / t := rfl
@[simp] theorem vec3.div_e1 (a : vec3 F) (t : F) : (a / t).e1 = a.e1 / t := rfl
@[simp] theorem vec3.div_e2 (a : vec3 F) (t : F) : (a / t).e2 = a.e2 / t := rfl
@[simp] theorem vec3.zero_e0 : (0 : vec3 F).e0 = 0 := rfl
@[simp] theorem vec3.zero_e1 : (0 : vec3 F).e1 = 0 := rfl
@[simp] theorem vec3.zero_e2 : (0 : vec3 F).e2 = 0 := rfl

/-- The value `color` returns when the ray hits nothing. -/
theorem color_miss (m : libm F) (rng : Nat → F) (fuel : Nat) (refracted0 : vec3 F)
    (world : hitable F) (r : ray F) (depth : Int) (i : Nat)
    (hmiss : world r 0.001 m.MAXFLOAT = none) :
    color m rng fuel refracted0 world r depth i
      = some ((1.0 - 0.5 * ((unit_vector m r.direction).y + 1.0)) * (⟨1.0, 1.0, 1.0⟩ : vec3 F)
          + (0.5 * ((unit_vector m r.direction).y + 1.0)) * (⟨0.5, 0.7, 1.0⟩ : vec3 F), i) := by
  rw [color]
  simp only [hmiss]

/-- The value `color` returns when the ray hits something at a depth that has
reached `MAX_DEPTH`. -/
theorem color_hit_deep (m : libm F) (rng : Nat → F) (fuel : Nat) (refracted0 : vec3 F)
    (world : hitable F) (r : ray F) (depth : Int) (i : Nat) (rec : hit_record F)
    (hhit : world r 0.001 m.MAXFLOAT = some rec) (hd : ¬ depth < MAX_DEPTH) :
    color m rng fuel refracted0 world r depth i = some (⟨0, 0, 0⟩, i) := by
  rw [color]
  simp only [hhit, hd, dite_false]

/-- C1: when the scene reports no hit for a ray with non-zero direction,
`color` returns the background gradient `(1-t)*(1,1,1) + t*(0.5,0.7,1.0)` with
`t = 0.5*(unit_vector(r.direction).y + 1)`, at every depth `d` (also
`d ≥ MAX_DEPTH`), so the result is the same at any two depths. No random
number is consumed. -/
theorem C1_color_background (m : libm F) (rng : Nat → F) (fuel : Nat) (refracted0 : vec3 F)
    (world : hitable F) (r : ray F) (d : Int) (i : Nat)
    (_hdir : r.direction ≠ 0)
    (hmiss : world r 0.001 m.MAXFLOAT = none) :
    color m rng fuel refracted0 world r d i
        = some ((1 - 0.5 * ((unit_vector m r.direction).y + 1)) * (⟨1, 1, 1⟩ : vec3 F)
            + (0.5 * ((unit_vector m r.direction).y + 1)) * (⟨0.5, 0.7, 1.0⟩ : vec3 F), i)
      ∧ ∀ d2 : Int, color m rng fuel refracted0 world r d2 i
          = color m rng fuel refracted0 world r d i := by
  refine ⟨?_, fun d2 => ?_⟩
  · rw [color_miss m rng fuel refracted0 world r d i hmiss]
    norm_num
  · rw [color_miss m rng fuel refracted0 world r d i hmiss,
      color_miss m rng fuel refracted0 world r d2 i hmiss]

/-- C1 at a concrete input: the empty scene, a ray pointing straight up, depth
`MAX_DEPTH`. -/
theorem C1_color_background_witness :
    (⟨0, 1, 0⟩ : vec3 ℝ) ≠ 0
    ∧ (fun _ _ _ => none : hitable ℝ) ⟨⟨0, 0, 0⟩, ⟨0, 1, 0⟩⟩ 0.001
        (⟨Real.sqrt, Real.cos, Real.sin, Real.tan, Real.pi, 3.4e38⟩ : libm ℝ).MAXFLOAT = none
    ∧ color (⟨Real.sqrt, Real.cos, Real.sin, Real.tan, Real.pi, 3.4e38⟩ : libm ℝ)
        (fun _ => 0.5) 8 ⟨0, 0, 0⟩ (fun _ _ _ => none) ⟨⟨0, 0, 0⟩, ⟨0, 1, 0⟩⟩ 50 0
        = some ((1 - 0.5 * ((unit_vector
              (⟨Real.sqrt, Real.cos, Real.sin, Real.tan, Real.pi, 3.4e38⟩ : libm ℝ)
              (⟨0, 1, 0⟩ : vec3 ℝ)).y + 1)) * (⟨1, 1, 1⟩ : vec3 ℝ)
            + (0.5 * ((unit_vector
              (⟨Real.sqrt, Real.cos, Real.sin, Real.tan, Real.pi, 3.4e38⟩ : libm ℝ)
              (⟨0, 1, 0⟩ : vec3 ℝ)).y + 1)) * (⟨0.5, 0.7, 1.0⟩ : vec3 ℝ), 0) :=
  have hdir : (⟨0, 1, 0⟩ : vec3 ℝ) ≠ 0 := fun h => by
    have h1 := congrArg vec3.e1 h
    simp at h1
  ⟨hdir, rfl,
    (C1_color_background _ (fun _ => 0.5) 8 ⟨0, 0, 0⟩ (fun _ _ _ => none)
      ⟨⟨0, 0, 0⟩, ⟨0, 1, 0⟩⟩ 50 0 hdir rfl).1⟩

/-- C2 as stated fails: in the empty scene the ray pointing straight up,
traced at depth `50 = MAX_DEPTH`, gets the sky colour `(0.5, 0.7, 1.0)`, not
black. -/
theorem C2_counterexample :
    (50 : Int) ≥ MAX_DEPTH
    ∧ color (⟨Real.sqrt, Real.cos, Real.sin, Real.tan, Real.pi, 3.4e38⟩ : libm ℝ)
        (fun _ => 0.5) 8 ⟨0, 0, 0⟩ (fun _ _ _ => none) ⟨⟨0, 0, 0⟩, ⟨0, 1, 0⟩⟩ 50 0
        = some (⟨0.5, 0.7, 1⟩, 0)
    ∧ (⟨0.5, 0.7, 1⟩ : vec3 ℝ) ≠ ⟨0, 0, 0⟩ := by
  refine ⟨by decide, ?_, ?_⟩
  · rw [color_miss _ _ _ _ _ _ _ _ rfl]
    simp only [unit_vector, vec3.length, vec3.y]
    norm_num
    ext <;> simp
  · intro h
    have h2 := congrArg vec3.e2 h
    norm_num at h2

/-- C2, amended: when the scene reports a hit for the ray in
`(0.001, MAXFLOAT)`, `color` called with `depth ≥ MAX_DEPTH` returns black
`(0,0,0)` without calling `scatter` (no random number is consumed). -/
theorem C2_color_depth_cap (m : libm F) (rng : Nat → F) (fuel : Nat) (refracted0 : vec3 F)
    (world : hitable F) (r : ray F) (depth : Int) (i : Nat) (rec : hit_record F)
    (hhit : world r 0.001 m.MAXFLOAT = some rec) (hd : depth ≥ MAX_DEPTH) :
    color m rng fuel refracted0 world r depth i = some (⟨0, 0, 0⟩, i) :=
  color_hit_deep m rng fuel refracted0 world r depth i rec hhit (not_lt.mpr hd)

/-- C2 (amended) at a concrete input: a scene that always reports a hit on a
grey Lambertian surface, depth 50. -/
theorem C2_color_depth_cap_witness :
    (fun _ _ _ => some ⟨1, ⟨0, 0, -1⟩, ⟨0, 0, 1⟩, material.lambertian ⟨⟨0.8, 0.8, 0.8⟩⟩⟩ :
        hitable ℝ) ⟨⟨0, 0, 0⟩, ⟨0, 0, -1⟩⟩ 0.001
        (⟨Real.sqrt, Real.cos, Real.sin, Real.tan, Real.pi, 3.4e38⟩ : libm ℝ).MAXFLOAT
      = some ⟨1, ⟨0, 0, -1⟩, ⟨0, 0, 1⟩, material.lambertian ⟨⟨0.8, 0.8, 0.8⟩⟩⟩
    ∧ (50 : Int) ≥ MAX_DEPTH
    ∧ color (⟨Real.sqrt, Real.cos, Real.sin, Real.tan, Real.pi, 3.4e38⟩ : libm ℝ)
        (fun _ => 0.5) 8 ⟨0, 0, 0⟩
        (fun _ _ _ => some ⟨1, ⟨0, 0, -1⟩, ⟨0, 0, 1⟩, material.lambertian ⟨⟨0.8, 0.8, 0.8⟩⟩⟩)
        ⟨⟨0, 0, 0⟩, ⟨0, 0, -1⟩⟩ 50 0 = some (⟨0, 0, 0⟩, 0) :=
  ⟨rfl, by decide, C2_color_depth_cap _ _ _ _ _ _ _ _ _ rfl (by decide)⟩

/-- C4: for a metal with albedo `a` and stored fuzz `f`, an incoming ray with
non-zero direction, a hit record `(p, n)` and an offset `q` returned by
`random_in_unit_sphere`, `metal::scatter` sets `attenuation = a` and
`scattered = ray(p, reflect(unit_vector(r_in.direction), n) + f*q)`, and it
returns false exactly when `dot(scattered.direction, n) ≤ 0`. -/
theorem C4_metal_scatter (self : metal F) (m : libm F) (rng : Nat → F) (fuel : Nat)
    (r_in : ray F) (rec : hit_record F) (i : Nat) (q : vec3 F) (j : Nat)
    (_hdir : r_in.direction ≠ 0)
    (hq : random_in_unit_sphere rng fuel i = some (q, j)) :
    ∃ s : scatter_result F,
      self.scatter m rng fuel r_in rec i = some (s, j)
      ∧ s.attenuation = self.albedo
      ∧ s.scattered
          = ⟨rec.p, reflect (unit_vector m r_in.direction) rec.normal + self.fuzz * q⟩
      ∧ (s.ok = false ↔ dot s.scattered.direction rec.normal ≤ 0) := by
  refine ⟨_, by simp only [metal.scatter, hq]; rfl, rfl, rfl, ?_⟩
  simp only [decide_eq_false_iff_not, not_lt, gt_iff_lt]

/-- C4 at a concrete input: fuzz 1, a ray of direction `(4/5, -3/5, 0)` grazing
a horizontal surface, and the stream `0.5, 0.1, 0.5` (offset `(0, -0.8, 0)`):
the scattered direction `(4/5, -1/5, 0)` points into the surface and the ray
is absorbed. -/
theorem C4_metal_scatter_witness :
    (⟨4/5, -3/5, 0⟩ : vec3 ℝ) ≠ 0
    ∧ random_in_unit_sphere (fun k => if k = 1 then (0.1 : ℝ) else 0.5) 8 0
        = some (⟨0, -0.8, 0⟩, 3)
    ∧ ∃ s : scatter_result ℝ,
      (metal.new ⟨0.1, 0.1, 0.1⟩ 1).scatter
          (⟨Real.sqrt, Real.cos, Real.sin, Real.tan, Real.pi, 3.4e38⟩ : libm ℝ)
          (fun k => if k = 1 then (0.1 : ℝ) else 0.5) 8 ⟨⟨0, 1, 0⟩, ⟨4/5, -3/5, 0⟩⟩
          ⟨1, ⟨0, 0, 0⟩, ⟨0, 1, 0⟩, material.metal (metal.new ⟨0.1, 0.1, 0.1⟩ 1)⟩ 0
        = some (s, 3)
      ∧ s.attenuation = ⟨0.1, 0.1, 0.1⟩
      ∧ s.scattered = ⟨⟨0, 0, 0⟩, ⟨4/5, -1/5, 0⟩⟩
      ∧ s.ok = false :=
  have hdir : (⟨4/5, -3/5, 0⟩ : vec3 ℝ) ≠ 0 := fun h => by
    have h1 := congrArg vec3.e1 h
    simp at h1
  have hq : random_in_unit_sphere (fun k => if k = 1 then (0.1 : ℝ) else 0.5) 8 0
      = some (⟨0, -0.8, 0⟩, 3) := by
    simp only [random_in_unit_sphere, vec3.squared_length]
    norm_num
    ext <;> norm_num
  have hs : Real.sqrt (4 / 5 * (4 / 5) + -3 / 5 * (-3 / 5) + 0 * 0) = 1 := by
    rw [show (4 / 5 * (4 / 5) + -3 / 5 * (-3 / 5) + 0 * 0 : ℝ) = 1 by norm_num]
    exact Real.sqrt_one
  ⟨hdir, hq, by
    obtain ⟨s, h1, h2, h3, h4⟩ := C4_metal_scatter (metal.new ⟨0.1, 0.1, 0.1⟩ 1)
      (⟨Real.sqrt, Real.cos, Real.sin, Real.tan, Real.pi, 3.4e38⟩ : libm ℝ)
      (fun k => if k = 1 then (0.1 : ℝ) else 0.5) 8
      ⟨⟨0, 1, 0⟩, ⟨4/5, -3/5, 0⟩⟩
      ⟨1, ⟨0, 0, 0⟩, ⟨0, 1, 0⟩, material.metal (metal.new ⟨0.1, 0.1, 0.1⟩ 1)⟩ 0
      ⟨0, -0.8, 0⟩ 3 hdir hq
    have hsc : s.scattered = ⟨⟨0, 0, 0⟩, ⟨4/5, -1/5, 0⟩⟩ := by
      rw [h3]
      simp only [reflect, unit_vector, vec3.length, dot, metal.new, hs]
      congr 1
      ext <;> norm_num
    refine ⟨s, h1, h2, hsc, h4.mpr ?_⟩
    rw [hsc]
    simp only [dot]
    norm_num⟩

/-- What `refract` returns, by the sign of its discriminant. -/
theorem refract_fst (m : libm F) (v n : vec3 F) (ni_over_nt : F) (refracted : vec3 F) :
    (refract m v n ni_over_nt refracted).1
      = decide (1 - ni_over_nt * ni_over_nt
          * (1 - dot (unit_vector m v) n * dot (unit_vector m v) n) > 0) := by
  unfold refract
  by_cases h : 1 - ni_over_nt * ni_over_nt
      * (1 - dot (unit_vector m v) n * dot (unit_vector m v) n) > 0
  · simp [h]
  · simp [h]

/-- The result of `dielectric::scatter` once `refract` has failed and the draw is below 1. -/
theorem dielectric_scatter_of_refract_fail (self : dielectric F) (m : libm F) (rng : Nat → F)
    (refracted0 : vec3 F) (r_in : ray F) (rec : hit_record F) (i : Nat)
    (hdraw : rng i < 1)
    (hfail : (refract m r_in.direction
        (if dot r_in.direction rec.normal > 0 then -rec.normal else rec.normal)
        (if dot r_in.direction rec.normal > 0 then self.ref_idx else 1 / self.ref_idx)
        refracted0).1 = false) :
    self.scatter m rng refracted0 r_in rec i
      = (⟨true, ⟨1, 1, 1⟩, ⟨rec.p, reflect r_in.direction rec.normal⟩⟩, i + 1) := by
  unfold dielectric.scatter
  by_cases h : dot r_in.direction rec.normal > 0
  · simp only [h, if_true] at hfail ⊢
    simp [hfail, hdraw]
  · simp only [h, if_false, one_div] at hfail ⊢
    simp [hfail, hdraw]

/-- C5: for a dielectric with `ref_idx > 0`, an incoming ray with non-zero
direction, a hit record with unit normal and a uniform draw in `[0,1)`:
`refract` (called with the effective normal and index ratio) returns false
exactly when `1 - ni_over_nt^2 * (1 - dt^2) ≤ 0`, and whenever it returns false
`dielectric::scatter` returns the reflected ray
`ray(rec.p, reflect(r_in.direction, rec.normal))`, whatever the local
`refracted` held: the refracted branch is not taken. -/
theorem C5_dielectric_total_internal_reflection (self : dielectric F) (m : libm F)
    (rng : Nat → F) (refracted0 : vec3 F) (r_in : ray F) (rec : hit_record F) (i : Nat)
    (_href : self.ref_idx > 0) (_hdir : r_in.direction ≠ 0)
    (_hn : rec.normal.squared_length = 1)
    (hdraw : 0 ≤ rng i ∧ rng i < 1) :
    ((refract m r_in.direction
        (if dot r_in.direction rec.normal > 0 then -rec.normal else rec.normal)
        (if dot r_in.direction rec.normal > 0 then self.ref_idx else 1 / self.ref_idx)
        refracted0).1 = false
      ↔ 1 - (if dot r_in.direction rec.normal > 0 then self.ref_idx else 1 / self.ref_idx) ^ 2
          * (1 - (dot (unit_vector m r_in.direction)
              (if dot r_in.direction rec.normal > 0 then -rec.normal else rec.normal)) ^ 2)
          ≤ 0)
    ∧ ((refract m r_in.direction
        (if dot r_in.direction rec.normal > 0 then -rec.normal else rec.normal)
        (if dot r_in.direction rec.normal > 0 then self.ref_idx else 1 / self.ref_idx)
        refracted0).1 = false
      → self.scatter m rng refracted0 r_in rec i
          = (⟨true, ⟨1, 1, 1⟩, ⟨rec.p, reflect r_in.direction rec.normal⟩⟩, i + 1)) := by
  refine ⟨?_, fun hfail =>
    dielectric_scatter_of_refract_fail self m rng refracted0 r_in rec i hdraw.2 hfail⟩
  rw [refract_fst, decide_eq_false_iff_not, not_lt, pow_two, pow_two]

/-- C5 at a concrete input: glass of index 2 left by a ray of direction
`(3/5, 4/5, 0)` through a surface of normal `(0, 1, 0)`; the discriminant is
`1 - 4 * (1 - 16/25) < 0`, and the ray is reflected. -/
theorem C5_dielectric_total_internal_reflection_witness :
    (2 : ℝ) > 0
    ∧ (⟨3/5, 4/5, 0⟩ : vec3 ℝ) ≠ 0
    ∧ (⟨0, 1, 0⟩ : vec3 ℝ).squared_length = 1
    ∧ (0 ≤ (0.5 : ℝ) ∧ (0.5 : ℝ) < 1)
    ∧ (dielectric.mk (2 : ℝ)).scatter
          (⟨Real.sqrt, Real.cos, Real.sin, Real.tan, Real.pi, 3.4e38⟩ : libm ℝ)
          (fun _ => 0.5) ⟨7, 8, 9⟩ ⟨⟨0, 0, 0⟩, ⟨3/5, 4/5, 0⟩⟩
          ⟨1, ⟨3/5, 4/5, 0⟩, ⟨0, 1, 0⟩, material.dielectric ⟨2⟩⟩ 0
        = (⟨true, ⟨1, 1, 1⟩, ⟨⟨3/5, 4/5, 0⟩, ⟨3/5, -(4/5), 0⟩⟩⟩, 1) :=
  have hdir : (⟨3/5, 4/5, 0⟩ : vec3 ℝ) ≠ 0 := fun h => by
    have h1 := congrArg vec3.e1 h
    simp at h1
  have hn : (⟨0, 1, 0⟩ : vec3 ℝ).squared_length = 1 := by
    simp [vec3.squared_length]
  have hdraw : 0 ≤ (0.5 : ℝ) ∧ (0.5 : ℝ) < 1 := by norm_num
  have hth := C5_dielectric_total_internal_reflection (dielectric.mk (2 : ℝ))
      (⟨Real.sqrt, Real.cos, Real.sin, Real.tan, Real.pi, 3.4e38⟩ : libm ℝ)
      (fun _ => 0.5) ⟨7, 8, 9⟩ ⟨⟨0, 0, 0⟩, ⟨3/5, 4/5, 0⟩⟩
      ⟨1, ⟨3/5, 4/5, 0⟩, ⟨0, 1, 0⟩, material.dielectric ⟨2⟩⟩ 0
      (by norm_num) hdir hn hdraw
  ⟨by norm_num, hdir, hn, hdraw, by
    have hs : Real.sqrt (3 / 5 * (3 / 5) + 4 / 5 * (4 / 5) + 0 * 0) = 1 := by
      rw [show (3 / 5 * (3 / 5) + 4 / 5 * (4 / 5) + 0 * 0 : ℝ) = 1 by norm_num]
      exact Real.sqrt_one
    have hfail := hth.1.mpr (by
      simp only [unit_vector, vec3.length, dot, hs]
      norm_num)
    rw [hth.2 hfail]
    simp only [reflect, dot]
    congr 3
    ext <;> norm_num⟩

/-- C6: for every `ref_idx > 0`, every incoming ray (entering or exiting),
every hit record and every random draw, `dielectric::scatter` returns true
with attenuation exactly `(1,1,1)` and a scattered ray that starts at the hit
point. -/
theorem C6_dielectric_never_absorbs (self : dielectric F) (m : libm F)
    (rng : Nat → F) (refracted0 : vec3 F) (r_in : ray F) (rec : hit_record F) (i : Nat)
    (_href : self.ref_idx > 0) :
    (self.scatter m rng refracted0 r_in rec i).1.ok = true
    ∧ (self.scatter m rng refracted0 r_in rec i).1.attenuation = ⟨1, 1, 1⟩
    ∧ (self.scatter m rng refracted0 r_in rec i).1.scattered.origin = rec.p := by
  unfold dielectric.scatter
  refine ⟨rfl, rfl, ?_⟩
  dsimp only
  split_ifs <;> rfl

/-- C6 at a concrete input: glass of index 1.5 entered head-on. -/
theorem C6_dielectric_never_absorbs_witness :
    (1.5 : ℝ) > 0
    ∧ ((dielectric.mk (1.5 : ℝ)).scatter
          (⟨Real.sqrt, Real.cos, Real.sin, Real.tan, Real.pi, 3.4e38⟩ : libm ℝ)
          (fun _ => 0.5) ⟨7, 8, 9⟩ ⟨⟨0, 1, 0⟩, ⟨0, -1, 0⟩⟩
          ⟨1, ⟨0, 0, 0⟩, ⟨0, 1, 0⟩, material.dielectric ⟨1.5⟩⟩ 0).1.ok = true
    ∧ ((dielectric.mk (1.5 : ℝ)).scatter
          (⟨Real.sqrt, Real.cos, Real.sin, Real.tan, Real.pi, 3.4e38⟩ : libm ℝ)
          (fun _ => 0.5) ⟨7, 8, 9⟩ ⟨⟨0, 1, 0⟩, ⟨0, -1, 0⟩⟩
          ⟨1, ⟨0, 0, 0⟩, ⟨0, 1, 0⟩, material.dielectric ⟨1.5⟩⟩ 0).1.attenuation = ⟨1, 1, 1⟩
    ∧ ((dielectric.mk (1.5 : ℝ)).scatter
          (⟨Real.sqrt, Real.cos, Real.sin, Real.tan, Real.pi, 3.4e38⟩ : libm ℝ)
          (fun _ => 0.5) ⟨7, 8, 9⟩ ⟨⟨0, 1, 0⟩, ⟨0, -1, 0⟩⟩
          ⟨1, ⟨0, 0, 0⟩, ⟨0, 1, 0⟩, material.dielectric ⟨1.5⟩⟩ 0).1.scattered.origin
        = ⟨0, 0, 0⟩ :=
  ⟨by norm_num, C6_dielectric_never_absorbs _ _ _ _ _ _ _ (by norm_num)⟩

/-- The value `color` returns when the ray hits something below `MAX_DEPTH` and
the material scatters. -/
theorem color_hit_scatter (m : libm F) (rng : Nat → F) (fuel : Nat) (refracted0 : vec3 F)
    (world : hitable F) (r : ray F) (depth : Int) (i : Nat) (rec : hit_record F)
    (s : scatter_result F) (j : Nat)
    (hhit : world r 0.001 m.MAXFLOAT = some rec) (hd : depth < MAX_DEPTH)
    (hs : rec.mat_ptr.scatter m rng fuel refracted0 r rec i = some (s, j))
    (hok : s.ok = true) :
    color m rng fuel refracted0 world r depth i
      = (color m rng fuel refracted0 world s.scattered (depth + 1) j).map
          (fun ck => (s.attenuation * ck.1, ck.2)) := by
  rw [color]
  simp only [hhit, hd, dite_true, hs, hok, if_true]
  cases color m rng fuel refracted0 world s.scattered (depth + 1) j <;> rfl

/-- The Lambertian `scatter` for an accepted offset `q`. -/
theorem lambertian_scatter_eq (self : lambertian F) (rng : Nat → F) (fuel : Nat)
    (r_in : ray F) (rec : hit_record F) (i : Nat) (q : vec3 F) (j : Nat)
    (hq : random_in_unit_sphere rng fuel i = some (q, j)) :
    self.scatter rng fuel r_in rec i
      = some (⟨true, self.albedo, ⟨rec.p, rec.normal + q⟩⟩, j) := by
  simp only [lambertian.scatter, hq]
  congr 4
  ext <;> simp
  all_goals ring

/-- A `scatter` call returns when the rejection loop it may run ends within
the fuel. -/
theorem material_scatter_returns (mat : material F) (m : libm F) (rng : Nat → F) (fuel : Nat)
    (refracted0 : vec3 F) (r_in : ray F) (rec : hit_record F) (i : Nat)
    (hfuel : (random_in_unit_sphere rng fuel i).isSome) :
    (mat.scatter m rng fuel refracted0 r_in rec i).isSome := by
  obtain ⟨⟨q, j⟩, hq⟩ := Option.isSome_iff_exists.mp hfuel
  cases mat with
  | lambertian l => simp [material.scatter, lambertian.scatter, hq]
  | metal mt => simp [material.scatter, metal.scatter, hq]
  | dielectric d => simp [material.scatter]

/-- The function `color` returns a colour, at every depth, when every rejection
loop ends within the fuel: the recursion stops at `MAX_DEPTH` at the latest. -/
theorem color_returns (m : libm F) (rng : Nat → F) (fuel : Nat) (refracted0 : vec3 F)
    (world : hitable F) (hfuel : ∀ i, (random_in_unit_sphere rng fuel i).isSome) :
    ∀ (n : Nat) (r : ray F) (depth : Int) (i : Nat), (MAX_DEPTH - depth).toNat ≤ n →
      (color m rng fuel refracted0 world r depth i).isSome := by
  intro n
  induction n with
  | zero =>
    intro r depth i hn
    have hd : ¬ depth < MAX_DEPTH := by omega
    rw [color]
    cases hw : world r 0.001 m.MAXFLOAT with
    | none => simp
    | some rec => simp [hd]
  | succ n ih =>
    intro r depth i hn
    rw [color]
    cases hw : world r 0.001 m.MAXFLOAT with
    | none => simp
    | some rec =>
      by_cases hd : depth < MAX_DEPTH
      · obtain ⟨⟨s, j⟩, hs⟩ := Option.isSome_iff_exists.mp
          (material_scatter_returns rec.mat_ptr m rng fuel refracted0 r rec i (hfuel i))
        simp only [hd, dite_true, hs]
        cases hok : s.ok with
        | false => simp
        | true =>
          obtain ⟨⟨c, k⟩, hc⟩ := Option.isSome_iff_exists.mp
            (ih s.scattered (depth + 1) j (by omega))
          simp [hc]
      · simp [hd]

/-- C7: at a depth below `MAX_DEPTH`, for a ray whose hit is on a Lambertian
surface of albedo `a`, with `q` the offset returned by `random_in_unit_sphere`:
the scatter is not absorbed, `scattered = ray(p, normal + q)`, and `color` is the
component-wise product of `a` with `color(scattered, world, depth + 1)`;
so with `a = (0,0,0)` the result is black whatever the further bounces
return. The call returns a colour when every rejection loop ends within the
fuel. -/
theorem C7_lambertian_bounce (m : libm F) (rng : Nat → F) (fuel : Nat) (refracted0 : vec3 F)
    (world : hitable F) (r : ray F) (depth : Int) (i : Nat) (rec : hit_record F)
    (a q : vec3 F) (j : Nat)
    (hd : depth < MAX_DEPTH)
    (hhit : world r 0.001 m.MAXFLOAT = some rec)
    (hmat : rec.mat_ptr = material.lambertian ⟨a⟩)
    (hq : random_in_unit_sphere rng fuel i = some (q, j)) :
    rec.mat_ptr.scatter m rng fuel refracted0 r rec i
        = some (⟨true, a, ⟨rec.p, rec.normal + q⟩⟩, j)
    ∧ color m rng fuel refracted0 world r depth i
        = (color m rng fuel refracted0 world ⟨rec.p, rec.normal + q⟩ (depth + 1) j).map
            (fun ck => (a * ck.1, ck.2))
    ∧ (a = ⟨0, 0, 0⟩ → ∀ (c : vec3 F) (k : Nat),
        color m rng fuel refracted0 world ⟨rec.p, rec.normal + q⟩ (depth + 1) j = some (c, k) →
        color m rng fuel refracted0 world r depth i = some (⟨0, 0, 0⟩, k))
    ∧ ((∀ i2, (random_in_unit_sphere rng fuel i2).isSome) →
        (color m rng fuel refracted0 world r depth i).isSome) := by
  have hs : rec.mat_ptr.scatter m rng fuel refracted0 r rec i
      = some (⟨true, a, ⟨rec.p, rec.normal + q⟩⟩, j) := by
    rw [hmat]
    exact lambertian_scatter_eq ⟨a⟩ rng fuel r rec i q j hq
  have hc := color_hit_scatter m rng fuel refracted0 world r depth i rec _ j hhit hd hs rfl
  refine ⟨hs, hc, fun ha c k hk => ?_, fun hfuel =>
    color_returns m rng fuel refracted0 world hfuel _ r depth i le_rfl⟩
  rw [hc]
  simp only [hk, Option.map_some', ha]
  congr 2
  ext <;> simp

/-- C7 at a concrete input: a scene that always reports a hit on a Lambertian
surface of albedo `(0.8, 0.8, 0.8)`, depth 49, offset `(0,0,0)`. -/
theorem C7_lambertian_bounce_witness :
    (49 : Int) < MAX_DEPTH
    ∧ random_in_unit_sphere (fun _ => (0.5 : ℝ)) 8 0 = some (⟨0, 0, 0⟩, 3)
    ∧ color (⟨Real.sqrt, Real.cos, Real.sin, Real.tan, Real.pi, 3.4e38⟩ : libm ℝ)
        (fun _ => 0.5) 8 ⟨0, 0, 0⟩
        (fun _ _ _ => some ⟨1, ⟨0, 0, -1⟩, ⟨0, 0, 1⟩, material.lambertian ⟨⟨0.8, 0.8, 0.8⟩⟩⟩)
        ⟨⟨0, 0, 0⟩, ⟨0, 0, -1⟩⟩ 49 0
      = (color (⟨Real.sqrt, Real.cos, Real.sin, Real.tan, Real.pi, 3.4e38⟩ : libm ℝ)
          (fun _ => 0.5) 8 ⟨0, 0, 0⟩
          (fun _ _ _ => some ⟨1, ⟨0, 0, -1⟩, ⟨0, 0, 1⟩, material.lambertian ⟨⟨0.8, 0.8, 0.8⟩⟩⟩)
          ⟨⟨0, 0, -1⟩, (⟨0, 0, 1⟩ : vec3 ℝ) + ⟨0, 0, 0⟩⟩ (49 + 1) 3).map
            (fun ck => ((⟨0.8, 0.8, 0.8⟩ : vec3 ℝ) * ck.1, ck.2)) :=
  have hq : random_in_unit_sphere (fun _ => (0.5 : ℝ)) 8 0 = some (⟨0, 0, 0⟩, 3) := by
    simp only [random_in_unit_sphere, vec3.squared_length]
    norm_num
    ext <;> simp
  ⟨by decide, hq,
    (C7_lambertian_bounce _ (fun _ => 0.5) 8 ⟨0, 0, 0⟩
      (fun _ _ _ => some ⟨1, ⟨0, 0, -1⟩, ⟨0, 0, 1⟩, material.lambertian ⟨⟨0.8, 0.8, 0.8⟩⟩⟩)
      ⟨⟨0, 0, 0⟩, ⟨0, 0, -1⟩⟩ 49 0
      ⟨1, ⟨0, 0, -1⟩, ⟨0, 0, 1⟩, material.lambertian ⟨⟨0.8, 0.8, 0.8⟩⟩⟩
      ⟨0.8, 0.8, 0.8⟩ ⟨0, 0, 0⟩ 3 (by decide) rfl rfl hq).2.1⟩

@[simp] theorem camera.update_camera_vectors_origin (m : libm F) (c : camera F) :
    (c.update_camera_vectors m).origin = c.origin := rfl
@[simp] theorem camera.update_camera_vectors_yaw (m : libm F) (c : camera F) :
    (c.update_camera_vectors m).yaw = c.yaw := rfl
@[simp] theorem camera.update_camera_vectors_pitch (m : libm F) (c : camera F) :
    (c.update_camera_vectors m).pitch = c.pitch := rfl
@[simp] theorem camera.update_camera_vectors_world_up (m : libm F) (c : camera F) :
    (c.update_camera_vectors m).world_up = c.world_up := rfl

/-- The six `if` statements of `process_keyboard` as one case distinction on
the direction code. -/
theorem camera.process_keyboard_eq (m : libm F) (c : camera F) (direction : Int) (v : F) :
    c.process_keyboard m direction v
      = if direction = 0 then
          (true, ({ c with origin := c.origin - v * c.front } : camera F).update_camera_vectors m)
        else if direction = 1 then
          (true, ({ c with origin := c.origin + v * c.front } : camera F).update_camera_vectors m)
        else if direction = 2 then
          (true, ({ c with origin := c.origin - v * c.right } : camera F).update_camera_vectors m)
        else if direction = 3 then
          (true, ({ c with origin := c.origin + v * c.right } : camera F).update_camera_vectors m)
        else if direction = 4 then
          (true,
            ({ c with origin := c.origin + v * c.world_up } : camera F).update_camera_vectors m)
        else if direction = 5 then
          (true,
            ({ c with origin := c.origin - v * c.world_up } : camera F).update_camera_vectors m)
        else (false, c) := by
  by_cases h0 : direction = 0
  · subst h0; simp [camera.process_keyboard]
  by_cases h1 : direction = 1
  · subst h1; simp [camera.process_keyboard]
  by_cases h2 : direction = 2
  · subst h2; simp [camera.process_keyboard]
  by_cases h3 : direction = 3
  · subst h3; simp [camera.process_keyboard]
  by_cases h4 : direction = 4
  · subst h4; simp [camera.process_keyboard]
  by_cases h5 : direction = 5
  · subst h5; simp [camera.process_keyboard]
  simp [camera.process_keyboard, h0, h1, h2, h3, h4, h5]

/-- C8 as stated fails: from the origin with `front = (0,0,-1)`, direction 0
("forward") with velocity 1 moves the origin to `origin - front = (0,0,1)`,
which is not `origin + front = (0,0,-1)`. -/
theorem C8_counterexample :
    (({ origin := ⟨0, 0, 0⟩, lower_left_corner := ⟨-2, -1, -1⟩, horizontal := ⟨4, 0, 0⟩,
            vertical := ⟨0, 2, 0⟩, u := ⟨1, 0, 0⟩, v := ⟨0, 1, 0⟩, w := ⟨0, 0, 1⟩,
            front := ⟨0, 0, -1⟩, right := ⟨1, 0, 0⟩, up := ⟨0, 1, 0⟩,
            world_up := ⟨0, 1, 0⟩, yaw := -90, pitch := 0 } : camera ℝ).process_keyboard
        (⟨Real.sqrt, Real.cos, Real.sin, Real.tan, Real.pi, 3.4e38⟩ : libm ℝ) 0 1
      ).2.origin = ⟨0, 0, 1⟩
    ∧ (⟨0, 0, 1⟩ : vec3 ℝ) ≠ (⟨0, 0, 0⟩ : vec3 ℝ) + (1 : ℝ) * (⟨0, 0, -1⟩ : vec3 ℝ) := by
  constructor
  · rw [camera.process_keyboard_eq]
    ext <;> simp
  · intro h
    have h2 := congrArg vec3.e2 h
    norm_num at h2

/-- C8, amended: `process_keyboard` moves `origin` by `v` times a basis vector
held before the call and leaves yaw, pitch and world_up unchanged: direction 0
gives `origin - v*front`, 1 gives `origin + v*front`, 2 gives
`origin - v*right`, 3 gives `origin + v*right`, 4 gives `origin + v*world_up`
and 5 gives `origin - v*world_up`. -/
theorem C8_process_keyboard_origin (m : libm F) (c : camera F) (v : F) :
    (c.process_keyboard m 0 v).2.origin = c.origin - v * c.front
    ∧ (c.process_keyboard m 1 v).2.origin = c.origin + v * c.front
    ∧ (c.process_keyboard m 2 v).2.origin = c.origin - v * c.right
    ∧ (c.process_keyboard m 3 v).2.origin = c.origin + v * c.right
    ∧ (c.process_keyboard m 4 v).2.origin = c.origin + v * c.world_up
    ∧ (c.process_keyboard m 5 v).2.origin = c.origin - v * c.world_up
    ∧ ∀ direction : Int,
        (c.process_keyboard m direction v).2.yaw = c.yaw
        ∧ (c.process_keyboard m direction v).2.pitch = c.pitch
        ∧ (c.process_keyboard m direction v).2.world_up = c.world_up := by
  refine ⟨by simp [camera.process_keyboard_eq], by simp [camera.process_keyboard_eq],
    by simp [camera.process_keyboard_eq], by simp [camera.process_keyboard_eq],
    by simp [camera.process_keyboard_eq], by simp [camera.process_keyboard_eq],
    fun direction => ?_⟩
  rw [camera.process_keyboard_eq]
  split_ifs <;> simp

/-- C9: for every camera state, every direction code in `0..5` and every
velocity (also 0), `process_keyboard` returns true. -/
theorem C9_process_keyboard_changed (m : libm F) (c : camera F) (direction : Int) (velocity : F)
    (hdir : 0 ≤ direction ∧ direction ≤ 5) :
    (c.process_keyboard m direction velocity).1 = true := by
  obtain ⟨h0, h5⟩ := hdir
  have h : direction = 0 ∨ direction = 1 ∨ direction = 2 ∨ direction = 3
      ∨ direction = 4 ∨ direction = 5 := by omega
  rcases h with h | h | h | h | h | h <;> subst h <;> simp [camera.process_keyboard_eq]

/-- C9 at a concrete input: direction 0 with velocity 0. -/
theorem C9_process_keyboard_changed_witness :
    ((0 : Int) ≤ 0 ∧ (0 : Int) ≤ 5)
    ∧ (({ origin := ⟨0, 0, 0⟩, lower_left_corner := ⟨-2, -1, -1⟩, horizontal := ⟨4, 0, 0⟩,
            vertical := ⟨0, 2, 0⟩, u := ⟨1, 0, 0⟩, v := ⟨0, 1, 0⟩, w := ⟨0, 0, 1⟩,
            front := ⟨0, 0, -1⟩, right := ⟨1, 0, 0⟩, up := ⟨0, 1, 0⟩,
            world_up := ⟨0, 1, 0⟩, yaw := -90, pitch := 0 } : camera ℝ).process_keyboard
        (⟨Real.sqrt, Real.cos, Real.sin, Real.tan, Real.pi, 3.4e38⟩ : libm ℝ) 0 0
      ).1 = true :=
  ⟨by decide, C9_process_keyboard_changed _ _ 0 0 (by decide)⟩

/-- C10: `process_mouse(xoffset, yoffset)` returns false exactly when both
offsets are 0, and when it returns false the camera (every field) is left as
it was. -/
theorem C10_process_mouse_noop (m : libm F) (c : camera F) (xoffset yoffset : F) :
    ((c.process_mouse m xoffset yoffset).1 = false ↔ xoffset = 0 ∧ yoffset = 0)
    ∧ ((c.process_mouse m xoffset yoffset).1 = false →
        (c.process_mouse m xoffset yoffset).2 = c) := by
  unfold camera.process_mouse
  by_cases h : xoffset = 0 ∧ yoffset = 0
  · simp [h]
  · simp [h]

/-- Two pixels of the image have the same index only if they are the same
pixel. -/
theorem pixel_index_inj (W H i j i2 j2 : Nat) (hi : i < W) (hi2 : i2 < W)
    (hj : j < H) (hj2 : j2 < H)
    (h : (H - 1 - j) * W + i = (H - 1 - j2) * W + i2) : i = i2 ∧ j = j2 := by
  have hW : 0 < W := by omega
  have h1 : ((H - 1 - j) * W + i) / W = H - 1 - j := by
    rw [Nat.add_comm, Nat.add_mul_div_right _ _ hW, Nat.div_eq_of_lt hi, Nat.zero_add]
  have h2 : ((H - 1 - j2) * W + i2) / W = H - 1 - j2 := by
    rw [Nat.add_comm, Nat.add_mul_div_right _ _ hW, Nat.div_eq_of_lt hi2, Nat.zero_add]
  have h3 : H - 1 - j = H - 1 - j2 := by rw [← h1, ← h2, h]
  have h4 : j = j2 := by omega
  subst h4
  exact ⟨by omega, rfl⟩

/-- The inner pixel loop over `i < n` of the row `j`: the counter is kept,
each pixel of the row gets its colour added and its average computed, and no
other entry is touched. -/
theorem render_row (W H : Nat) (col : Nat → Nat → vec3 F) (j : Nat) (st : frame_state F)
    (n : Nat) :
    ((List.range n).foldl (fun st i => render_pixel W H col st j i) st).total_samples
        = st.total_samples
    ∧ (∀ i, i < n →
        ((List.range n).foldl (fun st i => render_pixel W H col st j i) st).accumulation_buffer
            ((H - 1 - j) * W + i)
          = st.accumulation_buffer ((H - 1 - j) * W + i) + col i j
        ∧ ((List.range n).foldl (fun st i => render_pixel W H col st j i) st).accumulated_col
            ((H - 1 - j) * W + i)
          = (st.accumulation_buffer ((H - 1 - j) * W + i) + col i j)
              / ((st.total_samples * SAMPLES_PER_PIXEL : Int) : F))
    ∧ (∀ p, (∀ i, i < n → p ≠ (H - 1 - j) * W + i) →
        ((List.range n).foldl (fun st i => render_pixel W H col st j i) st).accumulation_buffer p
          = st.accumulation_buffer p
        ∧ ((List.range n).foldl (fun st i => render_pixel W H col st j i) st).accumulated_col p
          = st.accumulated_col p) := by
  induction n with
  | zero => simp
  | succ n ih =>
    obtain ⟨iht, iha, ihb⟩ := ih
    rw [List.range_succ, List.foldl_append, List.foldl_cons, List.foldl_nil]
    generalize (List.range n).foldl (fun st i => render_pixel W H col st j i) st = st1
      at iht iha ihb ⊢
    refine ⟨?_, ?_, ?_⟩
    · simpa only [render_pixel] using iht
    · intro i hi
      by_cases hin : i = n
      · subst hin
        have hb := ihb ((H - 1 - j) * W + i) (fun k hk => by omega)
        simp only [render_pixel, Function.update_same, hb.1, iht, and_self]
      · have hne : (H - 1 - j) * W + i ≠ (H - 1 - j) * W + n := by omega
        simp only [render_pixel, Function.update_noteq hne]
        exact iha i (by omega)
    · intro p hp
      have hne : p ≠ (H - 1 - j) * W + n := hp n (by omega)
      simp only [render_pixel, Function.update_noteq hne]
      exact ihb p (fun i hi => hp i (by omega))

/-- The two pixel loops over the rows `j < n`: the counter is kept, each pixel
of these rows gets its colour added once and its average computed, and no
other entry is touched. -/
theorem render_rows (W H : Nat) (col : Nat → Nat → vec3 F) (n : Nat) (hn : n ≤ H) :
    ∀ st : frame_state F,
    ((List.range n).reverse.foldl
        (fun st j => (List.range W).foldl (fun st i => render_pixel W H col st j i) st)
        st).total_samples = st.total_samples
    ∧ (∀ j i, j < n → i < W →
        ((List.range n).reverse.foldl
            (fun st j => (List.range W).foldl (fun st i => render_pixel W H col st j i) st)
            st).accumulation_buffer ((H - 1 - j) * W + i)
          = st.accumulation_buffer ((H - 1 - j) * W + i) + col i j
        ∧ ((List.range n).reverse.foldl
            (fun st j => (List.range W).foldl (fun st i => render_pixel W H col st j i) st)
            st).accumulated_col ((H - 1 - j) * W + i)
          = (st.accumulation_buffer ((H - 1 - j) * W + i) + col i j)
              / ((st.total_samples * SAMPLES_PER_PIXEL : Int) : F))
    ∧ (∀ p, (∀ j i, j < n → i < W → p ≠ (H - 1 - j) * W + i) →
        ((List.range n).reverse.foldl
            (fun st j => (List.range W).foldl (fun st i => render_pixel W H col st j i) st)
            st).accumulation_buffer p = st.accumulation_buffer p
        ∧ ((List.range n).reverse.foldl
            (fun st j => (List.range W).foldl (fun st i => render_pixel W H col st j i) st)
            st).accumulated_col p = st.accumulated_col p) := by
  induction n with
  | zero => intro st; simp
  | succ n ih =>
    intro st
    rw [List.range_succ, List.reverse_append, List.reverse_singleton, List.singleton_append,
      List.foldl_cons]
    obtain ⟨t1, a1, b1⟩ := render_row W H col n st W
    generalize (List.range W).foldl (fun st i => render_pixel W H col st n i) st = st1
      at t1 a1 b1 ⊢
    obtain ⟨t2, a2, b2⟩ := ih (by omega) st1
    generalize (List.range n).reverse.foldl
        (fun st j => (List.range W).foldl (fun st i => render_pixel W H col st j i) st)
        st1 = st2 at t2 a2 b2 ⊢
    refine ⟨t2.trans t1, ?_, ?_⟩
    · intro j i hj hi
      by_cases hjn : j = n
      · subst hjn
        have hb := b2 ((H - 1 - j) * W + i) (fun j2 i2 hj2 hi2 h => by
          have := (pixel_index_inj W H i j i2 j2 hi hi2 (by omega) (by omega) h).2
          omega)
        rw [hb.1, hb.2]
        exact a1 i hi
      · have hb := b1 ((H - 1 - j) * W + i) (fun i2 hi2 h => by
          have := (pixel_index_inj W H i j i2 n hi hi2 (by omega) (by omega) h).2
          omega)
        have ha := a2 j i (by omega) hi
        rw [ha.1, ha.2, hb.1, t1]
        exact ⟨rfl, rfl⟩
    · intro p hp
      have h2 := b2 p (fun j i hj hi => hp j i (by omega) hi)
      have h1 := b1 p (fun i hi => hp n i (by omega) hi)
      rw [h2.1, h2.2, h1.1, h1.2]
      exact ⟨rfl, rfl⟩

/-- The event loop resets the accumulation state when some `process_mouse`
call returned true and leaves it alone otherwise. -/
theorem poll_events_eq (l : List Bool) :
    ∀ st : frame_state F, poll_events st l = if l.any id then st.reset else st := by
  induction l with
  | nil => intro st; rfl
  | cons b rest ih =>
    intro st
    rw [poll_events, ih]
    cases b <;> cases hr : rest.any id <;> simp [hr, frame_state.reset]

/-- The frame up to the render loops: reset when the camera changed, then
increment the counter. -/
theorem frame_eq (st : frame_state F) (inp : frame_input F) :
    frame st inp = render SCREEN_WIDTH SCREEN_HEIGHT inp.col
      ⟨(if inp.changed then st.reset else st).accumulation_buffer,
        (if inp.changed then st.reset else st).total_samples + 1,
        (if inp.changed then st.reset else st).accumulated_col⟩ := by
  have hst : (if inp.moved then (poll_events st inp.mouse).reset else poll_events st inp.mouse)
      = if inp.changed then st.reset else st := by
    rw [poll_events_eq, frame_input.changed]
    cases inp.moved <;> cases inp.mouse.any id <;> simp [frame_state.reset]
  unfold frame
  dsimp only
  rw [hst]

/-- One frame: the state is reset when the camera changed, the counter is
incremented, and every pixel of the image gets the frame's colour added and
the average over the new counter computed. -/
theorem frame_spec (st : frame_state F) (inp : frame_input F) :
    (frame st inp).total_samples
        = (if inp.changed then 0 else st.total_samples) + 1
    ∧ ∀ i j, i < SCREEN_WIDTH → j < SCREEN_HEIGHT →
        (frame st inp).accumulation_buffer ((SCREEN_HEIGHT - 1 - j) * SCREEN_WIDTH + i)
          = (if inp.changed then 0
              else st.accumulation_buffer ((SCREEN_HEIGHT - 1 - j) * SCREEN_WIDTH + i))
            + inp.col i j
        ∧ (frame st inp).accumulated_col ((SCREEN_HEIGHT - 1 - j) * SCREEN_WIDTH + i)
          = (frame st inp).accumulation_buffer ((SCREEN_HEIGHT - 1 - j) * SCREEN_WIDTH + i)
              / (((frame st inp).total_samples * SAMPLES_PER_PIXEL : Int) : F) := by
  rw [frame_eq]
  unfold render
  obtain ⟨t, a, _⟩ := render_rows SCREEN_WIDTH SCREEN_HEIGHT inp.col SCREEN_HEIGHT le_rfl
    (⟨(if inp.changed then st.reset else st).accumulation_buffer,
        (if inp.changed then st.reset else st).total_samples + 1,
        (if inp.changed then st.reset else st).accumulated_col⟩ : frame_state F)
  refine ⟨?_, fun i j hi hj => ?_⟩
  · rw [t]
    cases inp.changed <;> simp [frame_state.reset]
  · obtain ⟨ha1, ha2⟩ := a j i hj hi
    rw [ha1, ha2, t]
    cases inp.changed
    · simp [frame_state.reset]
    · simp [frame_state.reset]
      rfl

theorem run_frames_snoc (st : frame_state F) (fs : List (frame_input F)) (f : frame_input F) :
    run_frames st (fs ++ [f]) = frame (run_frames st fs) f := by
  simp [run_frames, List.foldl_append]

/-- The invariant of the frame loop: the frames seen so far split into
`earlier ++ recent`, where `recent` are the frames since the last camera change;
the counter is the number of recent frames and every buffer entry of the image
is the sum of their colours. -/
theorem run_frames_inv (fs : List (frame_input F)) :
    ∃ earlier recent : List (frame_input F), fs = earlier ++ recent
      ∧ (run_frames frame_state.init fs).total_samples = (recent.length : Int)
      ∧ (fs ≠ [] → recent ≠ [])
      ∧ (∀ f ∈ recent.tail, f.changed = false)
      ∧ (earlier = [] ∨ ∃ f, recent.head? = some f ∧ f.changed = true)
      ∧ ∀ i j, i < SCREEN_WIDTH → j < SCREEN_HEIGHT →
          (run_frames frame_state.init fs).accumulation_buffer
              ((SCREEN_HEIGHT - 1 - j) * SCREEN_WIDTH + i)
            = (recent.map (fun f => f.col i j)).sum
          ∧ (fs ≠ [] →
              (run_frames frame_state.init fs).accumulated_col
                  ((SCREEN_HEIGHT - 1 - j) * SCREEN_WIDTH + i)
                = (run_frames frame_state.init fs).accumulation_buffer
                    ((SCREEN_HEIGHT - 1 - j) * SCREEN_WIDTH + i)
                  / (((run_frames frame_state.init fs).total_samples
                      * SAMPLES_PER_PIXEL : Int) : F)) := by
  induction fs using List.reverseRecOn with
  | nil =>
    refine ⟨[], [], rfl, rfl, fun h => h, by simp, Or.inl rfl, fun i j _ _ => ⟨rfl, ?_⟩⟩
    intro h
    exact absurd rfl h
  | append_singleton fs f ih =>
    obtain ⟨earlier, recent, hfs, ht, hne, htail, hhead, hbuf⟩ := ih
    obtain ⟨ft, fb⟩ := frame_spec (run_frames frame_state.init fs) f
    rw [run_frames_snoc]
    by_cases hc : f.changed = true
    · refine ⟨fs, [f], rfl, ?_, fun _ => by simp, by simp, Or.inr ⟨f, rfl, hc⟩, ?_⟩
      · rw [ft]; simp [hc]
      · intro i j hi hj
        obtain ⟨h1, h2⟩ := fb i j hi hj
        refine ⟨?_, fun _ => h2⟩
        rw [h1]; simp [hc]
    · have hc2 : f.changed = false := by simpa using hc
      refine ⟨earlier, recent ++ [f], by rw [hfs, List.append_assoc], ?_, fun _ => by simp,
        ?_, ?_, ?_⟩
      · rw [ft, ht]; simp [hc2]
      · intro g hg
        cases recent with
        | nil => simp at hg
        | cons a r =>
          simp only [List.cons_append, List.tail_cons, List.mem_append,
            List.mem_singleton] at hg
          rcases hg with hg | hg
          · exact htail g (by simpa using hg)
          · rw [hg]; exact hc2
      · rcases hhead with h | ⟨g, hg, hgc⟩
        · exact Or.inl h
        · refine Or.inr ⟨g, ?_, hgc⟩
          cases recent with
          | nil => simp at hg
          | cons a r => simpa using hg
      · intro i j hi hj
        obtain ⟨h1, h2⟩ := fb i j hi hj
        refine ⟨?_, fun _ => h2⟩
        rw [h1, List.map_append, List.sum_append, (hbuf i j hi hj).1]
        simp [hc2]

/-- C3: after every frame of the frame loop started from the initial state,
the frames seen so far split into `earlier ++ recent` where `recent` are the
frames since the most recent camera change (no frame after the first of them
changed the camera, and the first did or is the very first frame);
`total_samples` is the number of recent frames and is at least 1, the divisor
`total_samples * SAMPLES_PER_PIXEL` is not zero, every buffer entry of the
image is the sum of the colours of exactly the recent frames, and the
`accumulated_col` that is displayed is that sum divided by
`total_samples * SAMPLES_PER_PIXEL`. -/
theorem C3_accumulation_mean (fs : List (frame_input F)) (hne : fs ≠ []) :
    ∃ earlier recent : List (frame_input F), fs = earlier ++ recent
      ∧ (run_frames frame_state.init fs).total_samples = (recent.length : Int)
      ∧ 1 ≤ (run_frames frame_state.init fs).total_samples
      ∧ (∀ f ∈ recent.tail, f.changed = false)
      ∧ (earlier = [] ∨ ∃ f, recent.head? = some f ∧ f.changed = true)
      ∧ (((run_frames frame_state.init fs).total_samples * SAMPLES_PER_PIXEL : Int) : F) ≠ 0
      ∧ ∀ i j, i < SCREEN_WIDTH → j < SCREEN_HEIGHT →
          (run_frames frame_state.init fs).accumulation_buffer
              ((SCREEN_HEIGHT - 1 - j) * SCREEN_WIDTH + i)
            = (recent.map (fun f => f.col i j)).sum
          ∧ (run_frames frame_state.init fs).accumulated_col
              ((SCREEN_HEIGHT - 1 - j) * SCREEN_WIDTH + i)
            = (recent.map (fun f => f.col i j)).sum
                / (((run_frames frame_state.init fs).total_samples
                    * SAMPLES_PER_PIXEL : Int) : F) := by
  obtain ⟨earlier, recent, hfs, ht, hrec, htail, hhead, hbuf⟩ := run_frames_inv fs
  have hlen : 1 ≤ recent.length := by
    have := hrec hne
    cases recent with
    | nil => exact absurd rfl this
    | cons a r => simp
  have h1 : 1 ≤ (run_frames frame_state.init fs).total_samples := by
    rw [ht]; exact_mod_cast hlen
  refine ⟨earlier, recent, hfs, ht, h1, htail, hhead, ?_, fun i j hi hj => ?_⟩
  · have hpos : (0 : Int) < (run_frames frame_state.init fs).total_samples * SAMPLES_PER_PIXEL := by
      simp only [SAMPLES_PER_PIXEL]; omega
    have : (0 : F) < (((run_frames frame_state.init fs).total_samples
        * SAMPLES_PER_PIXEL : Int) : F) := by exact_mod_cast hpos
    exact ne_of_gt this
  · obtain ⟨hb1, hb2⟩ := hbuf i j hi hj
    exact ⟨hb1, by rw [hb2 hne, hb1]⟩

/-- C3 at a concrete input: a frame in which a mouse event turned the camera,
followed by a frame without any camera change. -/
theorem C3_accumulation_mean_witness :
    ([⟨[true], false, fun _ _ => ⟨1, 1, 1⟩⟩, ⟨[], false, fun _ _ => ⟨0, 1, 0⟩⟩] :
        List (frame_input ℚ)) ≠ []
    ∧ ∃ earlier recent : List (frame_input ℚ),
      ([⟨[true], false, fun _ _ => ⟨1, 1, 1⟩⟩, ⟨[], false, fun _ _ => ⟨0, 1, 0⟩⟩] :
          List (frame_input ℚ)) = earlier ++ recent
      ∧ (run_frames frame_state.init
          ([⟨[true], false, fun _ _ => ⟨1, 1, 1⟩⟩, ⟨[], false, fun _ _ => ⟨0, 1, 0⟩⟩] :
            List (frame_input ℚ))).total_samples = (recent.length : Int)
      ∧ 1 ≤ (run_frames frame_state.init
          ([⟨[true], false, fun _ _ => ⟨1, 1, 1⟩⟩, ⟨[], false, fun _ _ => ⟨0, 1, 0⟩⟩] :
            List (frame_input ℚ))).total_samples
      ∧ (∀ f ∈ recent.tail, f.changed = false)
      ∧ (earlier = [] ∨ ∃ f, recent.head? = some f ∧ f.changed = true)
      ∧ (((run_frames frame_state.init
          ([⟨[true], false, fun _ _ => ⟨1, 1, 1⟩⟩, ⟨[], false, fun _ _ => ⟨0, 1, 0⟩⟩] :
            List (frame_input ℚ))).total_samples * SAMPLES_PER_PIXEL : Int) : ℚ) ≠ 0
      ∧ ∀ i j, i < SCREEN_WIDTH → j < SCREEN_HEIGHT →
          (run_frames frame_state.init
              ([⟨[true], false, fun _ _ => ⟨1, 1, 1⟩⟩, ⟨[], false, fun _ _ => ⟨0, 1, 0⟩⟩] :
                List (frame_input ℚ))).accumulation_buffer
              ((SCREEN_HEIGHT - 1 - j) * SCREEN_WIDTH + i)
            = (recent.map (fun f => f.col i j)).sum
          ∧ (run_frames frame_state.init
              ([⟨[true], false, fun _ _ => ⟨1, 1, 1⟩⟩, ⟨[], false, fun _ _ => ⟨0, 1, 0⟩⟩] :
                List (frame_input ℚ))).accumulated_col
              ((SCREEN_HEIGHT - 1 - j) * SCREEN_WIDTH + i)
            = (recent.map (fun f => f.col i j)).sum
                / (((run_frames frame_state.init
                    ([⟨[true], false, fun _ _ => ⟨1, 1, 1⟩⟩,
                      ⟨[], false, fun _ _ => ⟨0, 1, 0⟩⟩] :
                      List (frame_input ℚ))).total_samples
                    * SAMPLES_PER_PIXEL : Int) : ℚ) :=
  ⟨List.cons_ne_nil _ _, C3_accumulation_mean _ (List.cons_ne_nil _ _)⟩

/-- The pitch and yaw that `process_mouse` leaves for a non-zero delta. -/
theorem camera.process_mouse_angles (m : libm F) (c : camera F) (xoffset yoffset : F)
    (h : ¬ (xoffset = 0 ∧ yoffset = 0)) :
    (c.process_mouse m xoffset yoffset).2.yaw = c.yaw - 0.1 * xoffset
    ∧ (c.process_mouse m xoffset yoffset).2.pitch
        = max (-89) (min 89 (c.pitch - 0.1 * yoffset)) := by
  unfold camera.process_mouse
  rw [if_neg h]
  simp only [camera.update_camera_vectors_yaw, camera.update_camera_vectors_pitch]
  have e89 : (89.0 : F) = 89 := by norm_num
  rw [e89, mul_comm xoffset, mul_comm yoffset]
  by_cases h1 : c.pitch - 0.1 * yoffset > 89
  · have h2 : ¬ ((89 : F) < -89) := by norm_num
    simp only [h1, if_true, h2, if_false]
    exact ⟨trivial, by rw [min_eq_left (le_of_lt h1), max_eq_right (by norm_num)]⟩
  · simp only [h1, if_false]
    have h1le : c.pitch - 0.1 * yoffset ≤ 89 := not_lt.mp h1
    by_cases h3 : c.pitch - 0.1 * yoffset < -89
    · simp only [h3, if_true]
      exact ⟨trivial, by rw [min_eq_right h1le, max_eq_left (le_of_lt h3)]⟩
    · simp only [h3, if_false]
      exact ⟨trivial, by rw [min_eq_right h1le, max_eq_right (not_lt.mp h3)]⟩

/-- The call `process_keyboard` leaves yaw, pitch and world_up as they were. -/
theorem camera.process_keyboard_angles (m : libm F) (c : camera F) (direction : Int)
    (v : F) :
    (c.process_keyboard m direction v).2.yaw = c.yaw
    ∧ (c.process_keyboard m direction v).2.pitch = c.pitch
    ∧ (c.process_keyboard m direction v).2.world_up = c.world_up := by
  rw [camera.process_keyboard_eq]
  split_ifs <;> simp

/-- The pitch stays in `[-89, 89]` through one call. -/
theorem camera.call_pitch (m : libm F) (c : camera F) (call : camera_call F)
    (h : -89 ≤ c.pitch ∧ c.pitch ≤ 89) :
    -89 ≤ (c.call m call).pitch ∧ (c.call m call).pitch ≤ 89 := by
  cases call with
  | keyboard direction velocity =>
    have := camera.process_keyboard_angles m c direction velocity
    simp only [camera.call, this.2.1]
    exact h
  | mouse xoffset yoffset =>
    simp only [camera.call]
    by_cases h0 : xoffset = 0 ∧ yoffset = 0
    · simp only [camera.process_mouse, h0, and_self, if_true]
      exact h
    · rw [(camera.process_mouse_angles m c xoffset yoffset h0).2]
      exact ⟨le_max_left _ _, max_le (by norm_num) (min_le_left _ _)⟩

/-- The pitch stays in `[-89, 89]` through a sequence of calls. -/
theorem camera.run_pitch (m : libm F) (calls : List (camera_call F)) :
    ∀ c : camera F, (-89 ≤ c.pitch ∧ c.pitch ≤ 89) →
      -89 ≤ (c.run m calls).pitch ∧ (c.run m calls).pitch ≤ 89 := by
  induction calls with
  | nil => intro c h; exact h
  | cons call rest ih =>
    intro c h
    exact ih (c.call m call) (camera.call_pitch m c call h)

@[simp] theorem camera.new_pitch (m : libm F) (lookfrom lookat vup : vec3 F) (vfov aspect : F) :
    (camera.new m lookfrom lookat vup vfov aspect).pitch = 0 := by
  simp only [camera.new, camera.update_camera_vectors_pitch]
  norm_num

/-- C11: in every camera state reached from the constructor by a finite
sequence of `process_keyboard` and `process_mouse` calls with arbitrary
arguments, the pitch lies in `[-89, 89]`; and a `process_mouse` call with a
non-zero delta sets yaw to `yaw - 0.1*xoffset` and pitch to
`clamp(pitch - 0.1*yoffset, -89, 89)`. -/
theorem C11_pitch_clamped (m : libm F) (lookfrom lookat vup : vec3 F) (vfov aspect : F)
    (calls : List (camera_call F)) :
    (-89 ≤ ((camera.new m lookfrom lookat vup vfov aspect).run m calls).pitch
      ∧ ((camera.new m lookfrom lookat vup vfov aspect).run m calls).pitch ≤ 89)
    ∧ ∀ (c : camera F) (xoffset yoffset : F), ¬ (xoffset = 0 ∧ yoffset = 0) →
        (c.process_mouse m xoffset yoffset).2.yaw = c.yaw - 0.1 * xoffset
        ∧ (c.process_mouse m xoffset yoffset).2.pitch
            = max (-89) (min 89 (c.pitch - 0.1 * yoffset)) := by
  refine ⟨camera.run_pitch m calls _ ?_, fun c xoffset yoffset h =>
    camera.process_mouse_angles m c xoffset yoffset h⟩
  rw [camera.new_pitch]
  constructor <;> norm_num

/-- C14 as stated fails: the constructor stores a negative `f` as it is, here
`f = -5`, which is not in `[0, 1]`. -/
theorem C14_counterexample :
    (metal.new (⟨0.1, 0.1, 0.1⟩ : vec3 ℚ) (-5)).fuzz = -5
    ∧ ¬ (0 ≤ (metal.new (⟨0.1, 0.1, 0.1⟩ : vec3 ℚ) (-5)).fuzz
          ∧ (metal.new (⟨0.1, 0.1, 0.1⟩ : vec3 ℚ) (-5)).fuzz ≤ 1) := by
  have h : (metal.new (⟨0.1, 0.1, 0.1⟩ : vec3 ℚ) (-5)).fuzz = -5 := by
    show (if (-5 : ℚ) < 1 then (-5 : ℚ) else 1) = -5
    exact if_pos (by norm_num)
  refine ⟨h, ?_⟩
  rw [h]
  norm_num

/-- C14, amended: for every `f` passed to the metal constructor the stored
fuzz is `min(f, 1)`: it is at most 1, and it lies in `[0, 1]` whenever
`f ≥ 0`. -/
theorem C14_metal_fuzz_bound (a : vec3 F) (f : F) :
    (metal.new a f).fuzz = min f 1
    ∧ (metal.new a f).fuzz ≤ 1
    ∧ (0 ≤ f → 0 ≤ (metal.new a f).fuzz ∧ (metal.new a f).fuzz ≤ 1) := by
  have h : (metal.new a f).fuzz = min f 1 := by
    unfold metal.new
    by_cases hf : f < 1
    · simp [hf, min_eq_left (le_of_lt hf)]
    · simp [hf, min_eq_right (not_lt.mp hf)]
  refine ⟨h, ?_, fun hf => ?_⟩
  · rw [h]; exact min_le_right _ _
  · rw [h]; exact ⟨le_min hf zero_le_one, min_le_right _ _⟩

/-- The Cauchy-Schwarz inequality for `dot`. -/
theorem vec3.dot_mul_self_le (a b : vec3 F) :
    dot a b * dot a b ≤ a.squared_length * b.squared_length := by
  simp only [dot, vec3.squared_length]
  nlinarith [sq_nonneg (a.e0 * b.e1 - a.e1 * b.e0), sq_nonneg (a.e0 * b.e2 - a.e2 * b.e0),
    sq_nonneg (a.e1 * b.e2 - a.e2 * b.e1)]

theorem vec3.squared_length_nonneg (v : vec3 F) : 0 ≤ v.squared_length := by
  simp only [vec3.squared_length]
  nlinarith [mul_self_nonneg v.e0, mul_self_nonneg v.e1, mul_self_nonneg v.e2]

/-- A vector that is not the zero vector has a positive squared length. -/
theorem vec3.squared_length_pos (v : vec3 F) (hv : v ≠ 0) : 0 < v.squared_length := by
  rcases lt_or_eq_of_le (vec3.squared_length_nonneg v) with h | h
  · exact h
  · exfalso
    apply hv
    simp only [vec3.squared_length] at h
    have h0 : v.e0 = 0 := by
      nlinarith [mul_self_nonneg v.e0, mul_self_nonneg v.e1, mul_self_nonneg v.e2]
    have h1 : v.e1 = 0 := by
      nlinarith [mul_self_nonneg v.e0, mul_self_nonneg v.e1, mul_self_nonneg v.e2]
    have h2 : v.e2 = 0 := by
      nlinarith [mul_self_nonneg v.e0, mul_self_nonneg v.e1, mul_self_nonneg v.e2]
    exact vec3.ext h0 h1 h2

/-- The loop of `random_in_unit_sphere` exits only with a point of squared
length below 1. -/
theorem random_in_unit_sphere_lt_one (rng : Nat → F) (fuel : Nat) :
    ∀ (i : Nat) (q : vec3 F) (j : Nat), random_in_unit_sphere rng fuel i = some (q, j) →
      q.squared_length < 1 := by
  induction fuel with
  | zero => intro i q j h; simp [random_in_unit_sphere] at h
  | succ fuel ih =>
    intro i q j h
    unfold random_in_unit_sphere at h
    dsimp only at h
    split_ifs at h with hge
    · exact ih _ q j h
    · simp only [Option.some.injEq, Prod.mk.injEq] at h
      rw [← h.1]
      exact not_le.mp hge

/-- For a unit normal `n` and an offset `q` inside the unit ball, `n + q` has a
positive component along `n`. -/
theorem dot_normal_add_offset_pos (n q : vec3 F) (hn : n.squared_length = 1)
    (hq : q.squared_length < 1) : dot (n + q) n > 0 := by
  have hcs := vec3.dot_mul_self_le q n
  rw [hn, mul_one] at hcs
  have hqn : dot q n * dot q n < 1 := lt_of_le_of_lt hcs hq
  have hgt : -1 < dot q n := by nlinarith
  have he : dot (n + q) n = n.squared_length + dot q n := by
    simp only [dot, vec3.squared_length, vec3.add_e0, vec3.add_e1, vec3.add_e2]
    ring
  rw [he, hn]
  linarith

/-- The view ray after `update_camera_vectors`, for a `tan` with
`tan(90 * M_PI / 180 / 2) = 1`. -/
theorem camera.update_get_ray (m : libm F) (htan : m.tan (90.0 * m.M_PI / 180.0 / 2) = 1)
    (c : camera F) (s t : F) :
    ((c.update_camera_vectors m).get_ray s t).origin = (c.update_camera_vectors m).origin
    ∧ ((c.update_camera_vectors m).get_ray s t).direction
        = ((2 * s - 1) * 2) * (c.update_camera_vectors m).right
          + (2 * t - 1) * (c.update_camera_vectors m).up
          - (c.update_camera_vectors m).front := by
  refine ⟨rfl, ?_⟩
  simp only [camera.get_ray, camera.update_camera_vectors, htan]
  ext <;> simp <;> ring

/-- A call that recomputes the derived state ends with
`update_camera_vectors`, and leaves yaw and pitch as that call found them. -/
theorem camera.recomputed_of_call (m : libm F) (c c1 : camera F)
    (h : (∃ (direction : Int) (velocity : F), 0 ≤ direction ∧ direction ≤ 5
            ∧ c1 = (c.process_keyboard m direction velocity).2)
        ∨ (∃ (xoffset yoffset : F), ¬ (xoffset = 0 ∧ yoffset = 0)
            ∧ c1 = (c.process_mouse m xoffset yoffset).2)) :
    ∃ c0 : camera F, c1 = c0.update_camera_vectors m := by
  rcases h with ⟨direction, velocity, h0, h5, rfl⟩ | ⟨xoffset, yoffset, hne, rfl⟩
  · have hd : direction = 0 ∨ direction = 1 ∨ direction = 2 ∨ direction = 3
        ∨ direction = 4 ∨ direction = 5 := by omega
    rw [camera.process_keyboard_eq]
    rcases hd with hd | hd | hd | hd | hd | hd <;> subst hd <;> exact ⟨_, rfl⟩
  · unfold camera.process_mouse
    rw [if_neg hne]
    exact ⟨_, rfl⟩

/-- C16: after a call that recomputes the derived state (a `process_keyboard`
call with a direction in `0..5` or a `process_mouse` call with a non-zero
delta), for all `s` and `t` the ray `get_ray(s, t)` starts at `origin` and has
direction `(2s-1)*2*right + (2t-1)*up - front`, whatever the camera held
before; the centre ray `get_ray(0.5, 0.5)` has direction `-front`, and a
forward key press (direction 0) moves the origin to `origin - velocity*front`,
which is `origin + velocity *` the direction of the resulting centre ray. -/
theorem C16_view_ray_after_update (maxf : ℝ) (c c1 : camera ℝ)
    (h : (∃ (direction : Int) (velocity : ℝ), 0 ≤ direction ∧ direction ≤ 5
            ∧ c1 = (c.process_keyboard
                (⟨Real.sqrt, Real.cos, Real.sin, Real.tan, Real.pi, maxf⟩ : libm ℝ)
                direction velocity).2)
        ∨ (∃ (xoffset yoffset : ℝ), ¬ (xoffset = 0 ∧ yoffset = 0)
            ∧ c1 = (c.process_mouse
                (⟨Real.sqrt, Real.cos, Real.sin, Real.tan, Real.pi, maxf⟩ : libm ℝ)
                xoffset yoffset).2)) :
    (∀ s t : ℝ, (c1.get_ray s t).origin = c1.origin
        ∧ (c1.get_ray s t).direction
            = ((2 * s - 1) * 2) * c1.right + (2 * t - 1) * c1.up - c1.front)
    ∧ (c1.get_ray 0.5 0.5).direction = -c1.front
    ∧ ∀ velocity : ℝ,
        (c1.process_keyboard
            (⟨Real.sqrt, Real.cos, Real.sin, Real.tan, Real.pi, maxf⟩ : libm ℝ)
            0 velocity).2.origin = c1.origin - velocity * c1.front
        ∧ (c1.process_keyboard
            (⟨Real.sqrt, Real.cos, Real.sin, Real.tan, Real.pi, maxf⟩ : libm ℝ)
            0 velocity).2.origin
          = c1.origin + velocity * ((c1.process_keyboard
              (⟨Real.sqrt, Real.cos, Real.sin, Real.tan, Real.pi, maxf⟩ : libm ℝ)
              0 velocity).2.get_ray 0.5 0.5).direction := by
  have htan : (⟨Real.sqrt, Real.cos, Real.sin, Real.tan, Real.pi, maxf⟩ : libm ℝ).tan
      (90.0 * (⟨Real.sqrt, Real.cos, Real.sin, Real.tan, Real.pi, maxf⟩ : libm ℝ).M_PI
        / 180.0 / 2) = 1 := by
    show Real.tan (90.0 * Real.pi / 180.0 / 2) = 1
    rw [show (90.0 * Real.pi / 180.0 / 2 : ℝ) = Real.pi / 4 by ring]
    exact Real.tan_pi_div_four
  obtain ⟨c0, rfl⟩ := camera.recomputed_of_call _ c c1 h
  have hray := camera.update_get_ray _ htan c0
  have hcentre : ∀ c : camera ℝ,
      ((c.update_camera_vectors
          (⟨Real.sqrt, Real.cos, Real.sin, Real.tan, Real.pi, maxf⟩ : libm ℝ)).get_ray
        0.5 0.5).direction
      = -(c.update_camera_vectors
          (⟨Real.sqrt, Real.cos, Real.sin, Real.tan, Real.pi, maxf⟩ : libm ℝ)).front := by
    intro c
    rw [(camera.update_get_ray _ htan c 0.5 0.5).2]
    ext <;> simp <;> norm_num
  refine ⟨hray, hcentre c0, fun velocity => ?_⟩
  have ho : (camera.process_keyboard
      (⟨Real.sqrt, Real.cos, Real.sin, Real.tan, Real.pi, maxf⟩ : libm ℝ)
      (c0.update_camera_vectors
        (⟨Real.sqrt, Real.cos, Real.sin, Real.tan, Real.pi, maxf⟩ : libm ℝ)) 0 velocity).2.origin
      = (c0.update_camera_vectors
          (⟨Real.sqrt, Real.cos, Real.sin, Real.tan, Real.pi, maxf⟩ : libm ℝ)).origin
        - velocity * (c0.update_camera_vectors
          (⟨Real.sqrt, Real.cos, Real.sin, Real.tan, Real.pi, maxf⟩ : libm ℝ)).front := by
    rw [camera.process_keyboard_eq]
    simp
  refine ⟨ho, ?_⟩
  rw [ho, camera.process_keyboard_eq]
  simp only [if_true]
  rw [hcentre]
  have hfront : ∀ o : vec3 ℝ,
      (camera.update_camera_vectors
        (⟨Real.sqrt, Real.cos, Real.sin, Real.tan, Real.pi, maxf⟩ : libm ℝ)
        { c0.update_camera_vectors
            (⟨Real.sqrt, Real.cos, Real.sin, Real.tan, Real.pi, maxf⟩ : libm ℝ) with
          origin := o }).front
      = (c0.update_camera_vectors
          (⟨Real.sqrt, Real.cos, Real.sin, Real.tan, Real.pi, maxf⟩ : libm ℝ)).front :=
    fun _ => rfl
  rw [hfront]
  ext <;> simp <;> ring

/-- C16 at a concrete input: the forward key (direction 0, velocity 1) pressed
on the camera that `main` constructs. -/
theorem C16_view_ray_after_update_witness :
    (∃ (direction : Int) (velocity : ℝ), 0 ≤ direction ∧ direction ≤ 5
      ∧ ((main_camera
            (⟨Real.sqrt, Real.cos, Real.sin, Real.tan, Real.pi, 3.4e38⟩ : libm ℝ)).process_keyboard
          (⟨Real.sqrt, Real.cos, Real.sin, Real.tan, Real.pi, 3.4e38⟩ : libm ℝ) 0 1).2
        = ((main_camera
            (⟨Real.sqrt, Real.cos, Real.sin, Real.tan, Real.pi, 3.4e38⟩ : libm ℝ)).process_keyboard
          (⟨Real.sqrt, Real.cos, Real.sin, Real.tan, Real.pi, 3.4e38⟩ : libm ℝ)
          direction velocity).2)
    ∧ (((main_camera
            (⟨Real.sqrt, Real.cos, Real.sin, Real.tan, Real.pi, 3.4e38⟩ : libm ℝ)).process_keyboard
          (⟨Real.sqrt, Real.cos, Real.sin, Real.tan, Real.pi, 3.4e38⟩ : libm ℝ) 0 1).2.get_ray
        0.5 0.5).direction
      = -((main_camera
            (⟨Real.sqrt, Real.cos, Real.sin, Real.tan, Real.pi, 3.4e38⟩ : libm ℝ)).process_keyboard
          (⟨Real.sqrt, Real.cos, Real.sin, Real.tan, Real.pi, 3.4e38⟩ : libm ℝ) 0 1).2.front :=
  ⟨⟨0, 1, le_refl _, by decide, rfl⟩,
    (C16_view_ray_after_update 3.4e38 _ _ (Or.inl ⟨0, 1, le_refl _, by decide, rfl⟩)).2.1⟩

/-- The normalised vector has squared length 1. -/
theorem unit_vector_squared_length (m : libm ℝ) (hs : m.sqrt = Real.sqrt) (v : vec3 ℝ)
    (hv : v ≠ 0) : (unit_vector m v).squared_length = 1 := by
  have hpos := vec3.squared_length_pos v hv
  have hL : Real.sqrt v.squared_length * Real.sqrt v.squared_length = v.squared_length :=
    Real.mul_self_sqrt (le_of_lt hpos)
  have hLpos : 0 < Real.sqrt v.squared_length := Real.sqrt_pos.mpr hpos
  simp only [unit_vector, vec3.length, hs, vec3.squared_length, vec3.div_e0, vec3.div_e1,
    vec3.div_e2] at hL hLpos ⊢
  field_simp
  linarith

/-- The length of a vector is positive when the vector is not zero. -/
theorem vec3.length_pos (m : libm ℝ) (hs : m.sqrt = Real.sqrt) (v : vec3 ℝ) (hv : v ≠ 0) :
    0 < v.length m := by
  simp only [vec3.length, hs]
  exact Real.sqrt_pos.mpr (vec3.squared_length_pos v hv)

/-- The vector built by `refract` from a unit vector `u`, a unit normal `n`, a
ratio `k` and a root `S` of the discriminant: unit length, component `-S` along
`n`, tangential part `k * (u - dot(u,n) * n)`. -/
theorem refracted_vector (u n : vec3 F) (k S : F) (hu : u.squared_length = 1)
    (hn : n.squared_length = 1)
    (hS : S * S = 1 - k * k * (1 - dot u n * dot u n)) :
    (k * (u - dot u n * n) - S * n).squared_length = 1
    ∧ dot (k * (u - dot u n * n) - S * n) n = -S
    ∧ (k * (u - dot u n * n) - S * n) - dot (k * (u - dot u n * n) - S * n) n * n
        = k * (u - dot u n * n) := by
  have hdot : dot (k * (u - dot u n * n) - S * n) n = -S := by
    simp only [dot, vec3.squared_length, vec3.sub_e0, vec3.sub_e1, vec3.sub_e2, vec3.smul_e0,
      vec3.smul_e1, vec3.smul_e2] at hn ⊢
    linear_combination (-(k * (u.e0 * n.e0 + u.e1 * n.e1 + u.e2 * n.e2)) - S) * hn
  refine ⟨?_, hdot, ?_⟩
  · simp only [dot, vec3.squared_length, vec3.sub_e0, vec3.sub_e1, vec3.sub_e2, vec3.smul_e0,
      vec3.smul_e1, vec3.smul_e2] at hu hn hS ⊢
    linear_combination (k * k) * hu
      + (k * k * (u.e0 * n.e0 + u.e1 * n.e1 + u.e2 * n.e2) ^ 2
          + 2 * k * S * (u.e0 * n.e0 + u.e1 * n.e1 + u.e2 * n.e2) + S * S) * hn + hS
  · rw [hdot]
    ext <;> simp

/-- C18: for a non-zero `v`, a unit vector `n` and any ratio `ni_over_nt`, with
`uv = unit_vector(v)` and `dt = dot(uv, n)`: `refract` returns true exactly when
`1 - ni_over_nt^2 * (1 - dt^2) > 0`, and then the refracted vector has unit
length, its part perpendicular to `n` is `ni_over_nt * (uv - dt*n)`, and
`dot(refracted, n) = -sqrt(1 - ni_over_nt^2 * (1 - dt^2)) < 0`. -/
theorem C18_refract_snell (maxf : ℝ) (v n : vec3 ℝ) (ni_over_nt : ℝ) (refracted0 : vec3 ℝ)
    (hv : v ≠ 0) (hn : n.squared_length = 1) :
    ((refract (⟨Real.sqrt, Real.cos, Real.sin, Real.tan, Real.pi, maxf⟩ : libm ℝ)
          v n ni_over_nt refracted0).1 = true
      ↔ 1 - ni_over_nt ^ 2 * (1 - (dot (unit_vector
            (⟨Real.sqrt, Real.cos, Real.sin, Real.tan, Real.pi, maxf⟩ : libm ℝ) v) n) ^ 2) > 0)
    ∧ ((refract (⟨Real.sqrt, Real.cos, Real.sin, Real.tan, Real.pi, maxf⟩ : libm ℝ)
          v n ni_over_nt refracted0).1 = true →
        (refract (⟨Real.sqrt, Real.cos, Real.sin, Real.tan, Real.pi, maxf⟩ : libm ℝ)
            v n ni_over_nt refracted0).2.squared_length = 1
        ∧ (refract (⟨Real.sqrt, Real.cos, Real.sin, Real.tan, Real.pi, maxf⟩ : libm ℝ)
            v n ni_over_nt refracted0).2.length
              (⟨Real.sqrt, Real.cos, Real.sin, Real.tan, Real.pi, maxf⟩ : libm ℝ) = 1
        ∧ (refract (⟨Real.sqrt, Real.cos, Real.sin, Real.tan, Real.pi, maxf⟩ : libm ℝ)
            v n ni_over_nt refracted0).2
          - dot (refract (⟨Real.sqrt, Real.cos, Real.sin, Real.tan, Real.pi, maxf⟩ : libm ℝ)
              v n ni_over_nt refracted0).2 n * n
          = ni_over_nt * (unit_vector
              (⟨Real.sqrt, Real.cos, Real.sin, Real.tan, Real.pi, maxf⟩ : libm ℝ) v
            - dot (unit_vector
              (⟨Real.sqrt, Real.cos, Real.sin, Real.tan, Real.pi, maxf⟩ : libm ℝ) v) n * n)
        ∧ dot (refract (⟨Real.sqrt, Real.cos, Real.sin, Real.tan, Real.pi, maxf⟩ : libm ℝ)
            v n ni_over_nt refracted0).2 n
          = -Real.sqrt (1 - ni_over_nt ^ 2 * (1 - (dot (unit_vector
              (⟨Real.sqrt, Real.cos, Real.sin, Real.tan, Real.pi, maxf⟩ : libm ℝ) v) n) ^ 2))
        ∧ dot (refract (⟨Real.sqrt, Real.cos, Real.sin, Real.tan, Real.pi, maxf⟩ : libm ℝ)
            v n ni_over_nt refracted0).2 n < 0) := by
  have hu := unit_vector_squared_length
    (⟨Real.sqrt, Real.cos, Real.sin, Real.tan, Real.pi, maxf⟩ : libm ℝ) rfl v hv
  have hpow : ∀ u : vec3 ℝ, 1 - ni_over_nt ^ 2 * (1 - (dot u n) ^ 2)
      = 1 - ni_over_nt * ni_over_nt * (1 - dot u n * dot u n) := fun u => by ring
  simp only [refract, hpow]
  generalize unit_vector (⟨Real.sqrt, Real.cos, Real.sin, Real.tan, Real.pi, maxf⟩ : libm ℝ) v
    = u at hu ⊢
  by_cases hd : 1 - ni_over_nt * ni_over_nt * (1 - dot u n * dot u n) > 0
  · have hS := Real.mul_self_sqrt (le_of_lt hd)
    obtain ⟨h1, h2, h3⟩ := refracted_vector u n ni_over_nt _ hu hn hS
    simp only [hd, if_true]
    refine ⟨by simp, fun _ => ⟨h1, ?_, h3, h2, ?_⟩⟩
    · show Real.sqrt (vec3.squared_length _) = 1
      rw [h1]
      exact Real.sqrt_one
    · rw [h2]
      exact neg_neg_of_pos (Real.sqrt_pos.mpr hd)
  · simp only [hd, if_false]
    simp

/-- C18 at a concrete input: a ray falling straight down on a horizontal
surface, ratio `1 / 1.5`. -/
theorem C18_refract_snell_witness :
    (⟨0, -1, 0⟩ : vec3 ℝ) ≠ 0
    ∧ (⟨0, 1, 0⟩ : vec3 ℝ).squared_length = 1
    ∧ ((refract (⟨Real.sqrt, Real.cos, Real.sin, Real.tan, Real.pi, 3.4e38⟩ : libm ℝ)
          ⟨0, -1, 0⟩ ⟨0, 1, 0⟩ (1 / 1.5) ⟨0, 0, 0⟩).1 = true
      ↔ 1 - (1 / 1.5 : ℝ) ^ 2 * (1 - (dot (unit_vector
            (⟨Real.sqrt, Real.cos, Real.sin, Real.tan, Real.pi, 3.4e38⟩ : libm ℝ)
            ⟨0, -1, 0⟩) ⟨0, 1, 0⟩) ^ 2) > 0) :=
  have hv : (⟨0, -1, 0⟩ : vec3 ℝ) ≠ 0 := fun h => by
    have h1 := congrArg vec3.e1 h
    simp at h1
  have hn : (⟨0, 1, 0⟩ : vec3 ℝ).squared_length = 1 := by
    simp [vec3.squared_length]
  ⟨hv, hn, (C18_refract_snell 3.4e38 ⟨0, -1, 0⟩ ⟨0, 1, 0⟩ (1 / 1.5) ⟨0, 0, 0⟩ hv hn).1⟩

/-- The Schlick value is at most 1 for a positive index and a non-negative
cosine. -/
theorem schlick_le_one (cosine ref_idx : F) (href : 0 < ref_idx) (hc : 0 ≤ cosine) :
    schlick cosine ref_idx ≤ 1 := by
  have hden : 0 < 1 + ref_idx := by linarith
  have hr0 : (1 - ref_idx) / (1 + ref_idx) * ((1 - ref_idx) / (1 + ref_idx)) ≤ 1 := by
    rw [div_mul_div_comm, div_le_one (mul_pos hden hden)]
    nlinarith
  have hx : (1 - cosine) ^ 5 ≤ 1 := by
    rcases le_or_lt 0 (1 - cosine) with h | h
    · exact pow_le_one₀ h (by linarith)
    · have : (1 - cosine) ^ 5 < 0 := Odd.pow_neg (by decide) h
      linarith
  simp only [schlick]
  nlinarith

/-- The Schlick value is not negative for a cosine that is at most 1. -/
theorem schlick_nonneg (cosine ref_idx : F) (href : 0 < ref_idx) (hc : cosine ≤ 1) :
    0 ≤ schlick cosine ref_idx := by
  have hden : 0 < 1 + ref_idx := by linarith
  have hr0 : (1 - ref_idx) / (1 + ref_idx) * ((1 - ref_idx) / (1 + ref_idx)) ≤ 1 := by
    rw [div_mul_div_comm, div_le_one (mul_pos hden hden)]
    nlinarith
  have hr0n : 0 ≤ (1 - ref_idx) / (1 + ref_idx) * ((1 - ref_idx) / (1 + ref_idx)) :=
    mul_self_nonneg _
  have hx : 0 ≤ (1 - cosine) ^ 5 := pow_nonneg (by linarith) 5
  simp only [schlick]
  nlinarith

/-- The component of a vector along a unit vector is at most its length. -/
theorem dot_le_length (m : libm ℝ) (hs : m.sqrt = Real.sqrt) (d n : vec3 ℝ)
    (hn : n.squared_length = 1) : |dot d n| ≤ d.length m := by
  have hcs := vec3.dot_mul_self_le d n
  rw [hn, mul_one] at hcs
  show |dot d n| ≤ m.sqrt d.squared_length
  rw [hs]
  exact Real.abs_le_sqrt (by rw [pow_two]; exact hcs)

/-- The local `cosine` of `dielectric::scatter` is not negative. -/
theorem dielectric.cosine_nonneg (self : dielectric ℝ) (m : libm ℝ) (hs : m.sqrt = Real.sqrt)
    (r_in : ray ℝ) (rec : hit_record ℝ) (href : self.ref_idx > 0)
    (hdir : r_in.direction ≠ 0) : 0 ≤ self.cosine m r_in rec := by
  have hlen := vec3.length_pos m hs r_in.direction hdir
  unfold dielectric.cosine
  split_ifs with h
  · exact div_nonneg (mul_nonneg (le_of_lt href) (le_of_lt h)) (le_of_lt hlen)
  · exact div_nonneg (by linarith) (le_of_lt hlen)

/-- The local `cosine` of `dielectric::scatter` is at most 1 for a ray that
enters, and for a ray that leaves a medium of index at most 1. -/
theorem dielectric.cosine_le_one (self : dielectric ℝ) (m : libm ℝ) (hs : m.sqrt = Real.sqrt)
    (r_in : ray ℝ) (rec : hit_record ℝ) (href : self.ref_idx > 0)
    (hdir : r_in.direction ≠ 0) (hn : rec.normal.squared_length = 1)
    (h : dot r_in.direction rec.normal ≤ 0 ∨ self.ref_idx ≤ 1) :
    self.cosine m r_in rec ≤ 1 := by
  have hlen := vec3.length_pos m hs r_in.direction hdir
  have habs := dot_le_length m hs r_in.direction rec.normal hn
  have h1 := (abs_le.mp habs).1
  have h2 := (abs_le.mp habs).2
  unfold dielectric.cosine
  split_ifs with hd
  · rw [div_le_one hlen]
    rcases h with h | h
    · linarith
    · nlinarith
  · rw [div_le_one hlen]
    linarith

/-- The comparison made by `dielectric::scatter`, written with `reflect_prob`. -/
theorem dielectric.scatter_eq_reflect_prob (self : dielectric F) (m : libm F) (rng : Nat → F)
    (refracted0 : vec3 F) (r_in : ray F) (rec : hit_record F) (i : Nat) :
    (self.scatter m rng refracted0 r_in rec i).1.scattered
      = if rng i < self.reflect_prob m refracted0 r_in rec then
          ⟨rec.p, reflect r_in.direction rec.normal⟩
        else
          ⟨rec.p, (refract m r_in.direction
            (if dot r_in.direction rec.normal > 0 then -rec.normal else rec.normal)
            (if dot r_in.direction rec.normal > 0 then self.ref_idx else 1 / self.ref_idx)
            refracted0).2⟩ := by
  unfold dielectric.scatter dielectric.reflect_prob dielectric.cosine
  by_cases h : dot r_in.direction rec.normal > 0
  · simp only [h, if_true]
  · simp only [h, if_false]

/-- C20 as stated fails: a ray leaving glass of index 2 head-on (direction and
normal `(0, 1, 0)`) is refracted, and its `reflect_prob` is
`schlick(2, 2) = -7/9`, which is negative. -/
theorem C20_counterexample :
    (dielectric.mk (2 : ℝ)).ref_idx > 0
    ∧ (⟨0, 1, 0⟩ : vec3 ℝ) ≠ 0
    ∧ (⟨0, 1, 0⟩ : vec3 ℝ).squared_length = 1
    ∧ (refract (⟨Real.sqrt, Real.cos, Real.sin, Real.tan, Real.pi, 3.4e38⟩ : libm ℝ)
        ⟨0, 1, 0⟩
        (if dot (⟨0, 1, 0⟩ : vec3 ℝ) ⟨0, 1, 0⟩ > 0 then -⟨0, 1, 0⟩ else ⟨0, 1, 0⟩)
        (if dot (⟨0, 1, 0⟩ : vec3 ℝ) ⟨0, 1, 0⟩ > 0 then (2 : ℝ) else 1 / 2)
        ⟨0, 0, 0⟩).1 = true
    ∧ (dielectric.mk (2 : ℝ)).reflect_prob
        (⟨Real.sqrt, Real.cos, Real.sin, Real.tan, Real.pi, 3.4e38⟩ : libm ℝ) ⟨0, 0, 0⟩
        ⟨⟨0, -1, 0⟩, ⟨0, 1, 0⟩⟩ ⟨1, ⟨0, 0, 0⟩, ⟨0, 1, 0⟩, material.dielectric ⟨2⟩⟩ = -(7 / 9)
    ∧ ¬ (0 ≤ (dielectric.mk (2 : ℝ)).reflect_prob
        (⟨Real.sqrt, Real.cos, Real.sin, Real.tan, Real.pi, 3.4e38⟩ : libm ℝ) ⟨0, 0, 0⟩
        ⟨⟨0, -1, 0⟩, ⟨0, 1, 0⟩⟩ ⟨1, ⟨0, 0, 0⟩, ⟨0, 1, 0⟩, material.dielectric ⟨2⟩⟩) := by
  have hs : Real.sqrt (0 * 0 + 1 * 1 + 0 * 0) = 1 := by
    rw [show (0 * 0 + 1 * 1 + 0 * 0 : ℝ) = 1 by norm_num]
    exact Real.sqrt_one
  have hdot : dot (⟨0, 1, 0⟩ : vec3 ℝ) ⟨0, 1, 0⟩ > 0 := by
    simp [dot]
  have hrefr : (refract (⟨Real.sqrt, Real.cos, Real.sin, Real.tan, Real.pi, 3.4e38⟩ : libm ℝ)
      ⟨0, 1, 0⟩ (-⟨0, 1, 0⟩) (2 : ℝ) ⟨0, 0, 0⟩).1 = true := by
    rw [refract_fst]
    simp only [unit_vector, vec3.length, dot, hs, decide_eq_true_eq]
    norm_num
  have hval : (dielectric.mk (2 : ℝ)).reflect_prob
      (⟨Real.sqrt, Real.cos, Real.sin, Real.tan, Real.pi, 3.4e38⟩ : libm ℝ) ⟨0, 0, 0⟩
      ⟨⟨0, -1, 0⟩, ⟨0, 1, 0⟩⟩ ⟨1, ⟨0, 0, 0⟩, ⟨0, 1, 0⟩, material.dielectric ⟨2⟩⟩ = -(7 / 9) := by
    unfold dielectric.reflect_prob
    simp only [hdot, if_true, hrefr, dielectric.cosine, schlick, vec3.length, hs]
    simp only [dot]
    norm_num
  refine ⟨by norm_num, ?_, by simp [vec3.squared_length], ?_, hval, ?_⟩
  · intro h
    have h1 := congrArg vec3.e1 h
    simp at h1
  · rw [if_pos hdot, if_pos hdot]
    exact hrefr
  · rw [hval]
    norm_num

/-- C20, amended: for a dielectric with `ref_idx > 0`, an incoming ray with
non-zero direction and a hit record with unit normal for which `refract`
succeeds, the value `reflect_prob = schlick(cosine, ref_idx)` that
`dielectric::scatter` compares with the uniform draw is at most 1; it lies in
`[0, 1]` when the ray enters (`dot(direction, normal) ≤ 0`) and when it leaves a
medium with `ref_idx ≤ 1`. -/
theorem C20_reflect_prob_bounds (maxf : ℝ) (self : dielectric ℝ) (rng : Nat → ℝ)
    (refracted0 : vec3 ℝ) (r_in : ray ℝ) (rec : hit_record ℝ) (i : Nat)
    (href : self.ref_idx > 0) (hdir : r_in.direction ≠ 0)
    (hn : rec.normal.squared_length = 1)
    (hrefr : (refract (⟨Real.sqrt, Real.cos, Real.sin, Real.tan, Real.pi, maxf⟩ : libm ℝ)
        r_in.direction
        (if dot r_in.direction rec.normal > 0 then -rec.normal else rec.normal)
        (if dot r_in.direction rec.normal > 0 then self.ref_idx else 1 / self.ref_idx)
        refracted0).1 = true) :
    self.reflect_prob (⟨Real.sqrt, Real.cos, Real.sin, Real.tan, Real.pi, maxf⟩ : libm ℝ)
        refracted0 r_in rec
      = schlick (self.cosine
          (⟨Real.sqrt, Real.cos, Real.sin, Real.tan, Real.pi, maxf⟩ : libm ℝ) r_in rec)
          self.ref_idx
    ∧ (self.scatter (⟨Real.sqrt, Real.cos, Real.sin, Real.tan, Real.pi, maxf⟩ : libm ℝ)
          rng refracted0 r_in rec i).1.scattered
        = (if rng i < self.reflect_prob
              (⟨Real.sqrt, Real.cos, Real.sin, Real.tan, Real.pi, maxf⟩ : libm ℝ)
              refracted0 r_in rec then
            ⟨rec.p, reflect r_in.direction rec.normal⟩
          else
            ⟨rec.p, (refract (⟨Real.sqrt, Real.cos, Real.sin, Real.tan, Real.pi, maxf⟩ : libm ℝ)
              r_in.direction
              (if dot r_in.direction rec.normal > 0 then -rec.normal else rec.normal)
              (if dot r_in.direction rec.normal > 0 then self.ref_idx else 1 / self.ref_idx)
              refracted0).2⟩)
    ∧ self.reflect_prob (⟨Real.sqrt, Real.cos, Real.sin, Real.tan, Real.pi, maxf⟩ : libm ℝ)
        refracted0 r_in rec ≤ 1
    ∧ ((dot r_in.direction rec.normal ≤ 0 ∨ self.ref_idx ≤ 1) →
        0 ≤ self.reflect_prob
            (⟨Real.sqrt, Real.cos, Real.sin, Real.tan, Real.pi, maxf⟩ : libm ℝ)
            refracted0 r_in rec
        ∧ self.reflect_prob
            (⟨Real.sqrt, Real.cos, Real.sin, Real.tan, Real.pi, maxf⟩ : libm ℝ)
            refracted0 r_in rec ≤ 1) := by
  have heq : self.reflect_prob
      (⟨Real.sqrt, Real.cos, Real.sin, Real.tan, Real.pi, maxf⟩ : libm ℝ) refracted0 r_in rec
      = schlick (self.cosine
          (⟨Real.sqrt, Real.cos, Real.sin, Real.tan, Real.pi, maxf⟩ : libm ℝ) r_in rec)
          self.ref_idx := by
    unfold dielectric.reflect_prob
    by_cases h : dot r_in.direction rec.normal > 0
    · simp only [h, if_true] at hrefr ⊢
      simp only [hrefr, if_true]
    · simp only [h, if_false] at hrefr ⊢
      simp only [hrefr, if_true]
  have hle := schlick_le_one _ self.ref_idx href
    (dielectric.cosine_nonneg self
      (⟨Real.sqrt, Real.cos, Real.sin, Real.tan, Real.pi, maxf⟩ : libm ℝ) rfl r_in rec href hdir)
  refine ⟨heq, dielectric.scatter_eq_reflect_prob self _ rng refracted0 r_in rec i, ?_,
    fun h => ⟨?_, ?_⟩⟩
  · rw [heq]; exact hle
  · rw [heq]
    exact schlick_nonneg _ self.ref_idx href
      (dielectric.cosine_le_one self _ rfl r_in rec href hdir hn h)
  · rw [heq]; exact hle

/-- C20 (amended) at a concrete input: glass of index 1.5 entered head-on. -/
theorem C20_reflect_prob_bounds_witness :
    (dielectric.mk (1.5 : ℝ)).ref_idx > 0
    ∧ (⟨0, -1, 0⟩ : vec3 ℝ) ≠ 0
    ∧ (⟨0, 1, 0⟩ : vec3 ℝ).squared_length = 1
    ∧ (refract (⟨Real.sqrt, Real.cos, Real.sin, Real.tan, Real.pi, 3.4e38⟩ : libm ℝ)
        ⟨0, -1, 0⟩
        (if dot (⟨0, -1, 0⟩ : vec3 ℝ) ⟨0, 1, 0⟩ > 0 then -⟨0, 1, 0⟩ else ⟨0, 1, 0⟩)
        (if dot (⟨0, -1, 0⟩ : vec3 ℝ) ⟨0, 1, 0⟩ > 0 then (1.5 : ℝ) else 1 / 1.5)
        ⟨0, 0, 0⟩).1 = true
    ∧ (dielectric.mk (1.5 : ℝ)).reflect_prob
        (⟨Real.sqrt, Real.cos, Real.sin, Real.tan, Real.pi, 3.4e38⟩ : libm ℝ) ⟨0, 0, 0⟩
        ⟨⟨0, 1, 0⟩, ⟨0, -1, 0⟩⟩ ⟨1, ⟨0, 0, 0⟩, ⟨0, 1, 0⟩, material.dielectric ⟨1.5⟩⟩ ≤ 1 :=
  have hs : Real.sqrt (0 * 0 + -1 * -1 + 0 * 0) = 1 := by
    rw [show (0 * 0 + -1 * -1 + 0 * 0 : ℝ) = 1 by norm_num]
    exact Real.sqrt_one
  have hdir : (⟨0, -1, 0⟩ : vec3 ℝ) ≠ 0 := fun h => by
    have h1 := congrArg vec3.e1 h
    simp at h1
  have hn : (⟨0, 1, 0⟩ : vec3 ℝ).squared_length = 1 := by
    simp [vec3.squared_length]
  have hdot : ¬ (dot (⟨0, -1, 0⟩ : vec3 ℝ) ⟨0, 1, 0⟩ > 0) := by
    simp [dot]
  have hrefr : (refract (⟨Real.sqrt, Real.cos, Real.sin, Real.tan, Real.pi, 3.4e38⟩ : libm ℝ)
      ⟨0, -1, 0⟩
      (if dot (⟨0, -1, 0⟩ : vec3 ℝ) ⟨0, 1, 0⟩ > 0 then -⟨0, 1, 0⟩ else ⟨0, 1, 0⟩)
      (if dot (⟨0, -1, 0⟩ : vec3 ℝ) ⟨0, 1, 0⟩ > 0 then (1.5 : ℝ) else 1 / 1.5)
      ⟨0, 0, 0⟩).1 = true := by
    rw [if_neg hdot, if_neg hdot, refract_fst]
    simp only [unit_vector, vec3.length, dot, hs, decide_eq_true_eq]
    norm_num
  ⟨by norm_num, hdir, hn, hrefr,
    (C20_reflect_prob_bounds 3.4e38 (dielectric.mk (1.5 : ℝ)) (fun _ => 0.5) ⟨0, 0, 0⟩
      ⟨⟨0, 1, 0⟩, ⟨0, -1, 0⟩⟩ ⟨1, ⟨0, 0, 0⟩, ⟨0, 1, 0⟩, material.dielectric ⟨1.5⟩⟩ 0
      (by norm_num) hdir hn hrefr).2.2.1⟩

/-- The quantised channel `int(255.99 * sqrt(c))` lies in `0..255` for `c` in
`[0, 1]`. -/
theorem quantise_range (c : ℝ) (_h0 : 0 ≤ c) (h1 : c ≤ 1) :
    0 ≤ to_int (255.99 * Real.sqrt c) ∧ to_int (255.99 * Real.sqrt c) ≤ 255 := by
  have hs0 : 0 ≤ Real.sqrt c := Real.sqrt_nonneg c
  have hs1 : Real.sqrt c ≤ 1 := Real.sqrt_le_one.mpr h1
  have hx0 : (0 : ℝ) ≤ 255.99 * Real.sqrt c := by positivity
  have hx1 : (255.99 : ℝ) * Real.sqrt c < 256 := by nlinarith
  unfold to_int
  rw [if_pos hx0]
  constructor
  · exact Int.floor_nonneg.mpr hx0
  · have : ⌊(255.99 : ℝ) * Real.sqrt c⌋ < 256 := Int.floor_lt.mpr (by exact_mod_cast hx1)
    omega

/-- Four bytes packed with shifts and bitwise or are the sum of the shifted
bytes. -/
theorem pack_bytes (a b c : Nat) (ha : a ≤ 255) (hb : b ≤ 255) (hc : c ≤ 255) :
    to_uint32 (Int.lor (Int.lor (Int.lor ((255 : Int) <<< (24 : Int))
        ((a : Int) <<< (16 : Int))) ((b : Int) <<< (8 : Int))) (c : Int))
      = 255 * 2 ^ 24 + a * 2 ^ 16 + b * 2 ^ 8 + c := by
  have e1 : (255 : Int) <<< (24 : Int) = ((255 <<< 24 : Nat) : Int) := by
    have := Int.shiftLeft_coe_nat 255 24
    simpa using this
  have e2 : (a : Int) <<< (16 : Int) = ((a <<< 16 : Nat) : Int) := by
    have := Int.shiftLeft_coe_nat a 16
    simpa using this
  have e3 : (b : Int) <<< (8 : Int) = ((b <<< 8 : Nat) : Int) := by
    have := Int.shiftLeft_coe_nat b 8
    simpa using this
  rw [e1, e2, e3]
  have hor : Int.lor (Int.lor (Int.lor ((255 <<< 24 : Nat) : Int) ((a <<< 16 : Nat) : Int))
      ((b <<< 8 : Nat) : Int)) (c : Int)
      = ((255 <<< 24 ||| a <<< 16 ||| b <<< 8 ||| c : Nat) : Int) := rfl
  rw [hor, Nat.shiftLeft_eq, Nat.shiftLeft_eq, Nat.shiftLeft_eq]
  have h1 : 255 * 2 ^ 24 ||| a * 2 ^ 16 = 2 ^ 16 * (255 * 2 ^ 8 + a) := by
    have := Nat.mul_add_lt_is_or (show a * 2 ^ 16 < 2 ^ 24 by omega) 255
    rw [show 255 * 2 ^ 24 = 2 ^ 24 * 255 by ring, ← this]
    ring
  have h2 : 2 ^ 16 * (255 * 2 ^ 8 + a) ||| b * 2 ^ 8 = 2 ^ 8 * ((255 * 2 ^ 8 + a) * 2 ^ 8 + b) := by
    have := Nat.mul_add_lt_is_or (show b * 2 ^ 8 < 2 ^ 16 by omega) (255 * 2 ^ 8 + a)
    rw [← this]
    ring
  have h3 : 2 ^ 8 * ((255 * 2 ^ 8 + a) * 2 ^ 8 + b) ||| c
      = 255 * 2 ^ 24 + a * 2 ^ 16 + b * 2 ^ 8 + c := by
    have := Nat.mul_add_lt_is_or (show c < 2 ^ 8 by omega) ((255 * 2 ^ 8 + a) * 2 ^ 8 + b)
    rw [← this]
    ring
  rw [h1, h2, h3]
  unfold to_uint32
  omega

/-- C13 as stated fails: for the average `(0, 4, 0)` the green channel is
quantised to `int(255.99 * 2) = 511`, no clamp is applied, and the pixel
written is `0xFF01FF00`: its red byte is 1 although the red channel is
quantised to 0. -/
theorem C13_counterexample :
    ((0 : ℝ) ≤ 0 ∧ (0 : ℝ) ≤ 4)
    ∧ to_int ((255.99 : ℝ) * Real.sqrt 0) = 0
    ∧ to_int ((255.99 : ℝ) * Real.sqrt 4) = 511
    ∧ pack_pixel (⟨Real.sqrt, Real.cos, Real.sin, Real.tan, Real.pi, 3.4e38⟩ : libm ℝ)
        ⟨0, 4, 0⟩ = 4278320896
    ∧ pack_pixel (⟨Real.sqrt, Real.cos, Real.sin, Real.tan, Real.pi, 3.4e38⟩ : libm ℝ)
        ⟨0, 4, 0⟩ / 2 ^ 16 % 256 = 1 := by
  have hs4 : Real.sqrt 4 = 2 := by
    rw [show (4 : ℝ) = 2 ^ 2 by norm_num]
    exact Real.sqrt_sq (by norm_num)
  have hr : to_int ((255.99 : ℝ) * Real.sqrt 0) = 0 := by
    rw [Real.sqrt_zero, mul_zero]
    simp [to_int]
  have hg : to_int ((255.99 : ℝ) * Real.sqrt 4) = 511 := by
    rw [hs4]
    unfold to_int
    rw [if_pos (by norm_num)]
    exact Int.floor_eq_iff.mpr ⟨by norm_num, by norm_num⟩
  have hp : pack_pixel (⟨Real.sqrt, Real.cos, Real.sin, Real.tan, Real.pi, 3.4e38⟩ : libm ℝ)
      ⟨0, 4, 0⟩ = 4278320896 := by
    simp only [pack_pixel, hr, hg]
    decide
  refine ⟨by norm_num, hr, hg, hp, ?_⟩
  rw [hp]
  decide

/-- C13, amended: for an accumulated colour average whose components lie in
`[0, 1]`, each channel `int(255.99 * sqrt(c))` lies in `0..255`, and the 32-bit
value written to the pixel buffer has alpha byte 255 and red, green and blue
bytes equal to the three quantised channels: no channel reaches another
channel's bits. -/
theorem C13_pack_pixel_bytes (maxf : ℝ) (c : vec3 ℝ) (hc : c.in_unit_range) :
    ∃ ir ig ib : Nat,
      (ir : Int) = to_int (255.99 * Real.sqrt c.e0)
      ∧ (ig : Int) = to_int (255.99 * Real.sqrt c.e1)
      ∧ (ib : Int) = to_int (255.99 * Real.sqrt c.e2)
      ∧ ir ≤ 255 ∧ ig ≤ 255 ∧ ib ≤ 255
      ∧ pack_pixel (⟨Real.sqrt, Real.cos, Real.sin, Real.tan, Real.pi, maxf⟩ : libm ℝ) c
          = 255 * 2 ^ 24 + ir * 2 ^ 16 + ig * 2 ^ 8 + ib
      ∧ pack_pixel (⟨Real.sqrt, Real.cos, Real.sin, Real.tan, Real.pi, maxf⟩ : libm ℝ) c
          < 2 ^ 32
      ∧ pack_pixel (⟨Real.sqrt, Real.cos, Real.sin, Real.tan, Real.pi, maxf⟩ : libm ℝ) c
          / 2 ^ 24 = 255
      ∧ pack_pixel (⟨Real.sqrt, Real.cos, Real.sin, Real.tan, Real.pi, maxf⟩ : libm ℝ) c
          / 2 ^ 16 % 256 = ir
      ∧ pack_pixel (⟨Real.sqrt, Real.cos, Real.sin, Real.tan, Real.pi, maxf⟩ : libm ℝ) c
          / 2 ^ 8 % 256 = ig
      ∧ pack_pixel (⟨Real.sqrt, Real.cos, Real.sin, Real.tan, Real.pi, maxf⟩ : libm ℝ) c
          % 256 = ib := by
  obtain ⟨⟨h00, h01⟩, ⟨h10, h11⟩, ⟨h20, h21⟩⟩ := hc
  obtain ⟨r0, r1⟩ := quantise_range c.e0 h00 h01
  obtain ⟨g0, g1⟩ := quantise_range c.e1 h10 h11
  obtain ⟨b0, b1⟩ := quantise_range c.e2 h20 h21
  have hr := Int.toNat_of_nonneg r0
  have hg := Int.toNat_of_nonneg g0
  have hb := Int.toNat_of_nonneg b0
  have hp : pack_pixel (⟨Real.sqrt, Real.cos, Real.sin, Real.tan, Real.pi, maxf⟩ : libm ℝ) c
      = 255 * 2 ^ 24 + (to_int (255.99 * Real.sqrt c.e0)).toNat * 2 ^ 16
        + (to_int (255.99 * Real.sqrt c.e1)).toNat * 2 ^ 8
        + (to_int (255.99 * Real.sqrt c.e2)).toNat := by
    rw [← pack_bytes _ _ _ (by omega) (by omega) (by omega), hr, hg, hb]
    rfl
  refine ⟨_, _, _, hr, hg, hb, by omega, by omega, by omega, hp, ?_, ?_, ?_, ?_, ?_⟩
  all_goals rw [hp]
  all_goals omega

/-- C13 (amended) at a concrete input: the average `(1, 0.25, 0)`. -/
theorem C13_pack_pixel_bytes_witness :
    (⟨1, 0.25, 0⟩ : vec3 ℝ).in_unit_range
    ∧ ∃ ir ig ib : Nat,
      (ir : Int) = to_int (255.99 * Real.sqrt (⟨1, 0.25, 0⟩ : vec3 ℝ).e0)
      ∧ (ig : Int) = to_int (255.99 * Real.sqrt (⟨1, 0.25, 0⟩ : vec3 ℝ).e1)
      ∧ (ib : Int) = to_int (255.99 * Real.sqrt (⟨1, 0.25, 0⟩ : vec3 ℝ).e2)
      ∧ ir ≤ 255 ∧ ig ≤ 255 ∧ ib ≤ 255
      ∧ pack_pixel (⟨Real.sqrt, Real.cos, Real.sin, Real.tan, Real.pi, 3.4e38⟩ : libm ℝ)
          ⟨1, 0.25, 0⟩ = 255 * 2 ^ 24 + ir * 2 ^ 16 + ig * 2 ^ 8 + ib
      ∧ pack_pixel (⟨Real.sqrt, Real.cos, Real.sin, Real.tan, Real.pi, 3.4e38⟩ : libm ℝ)
          ⟨1, 0.25, 0⟩ < 2 ^ 32
      ∧ pack_pixel (⟨Real.sqrt, Real.cos, Real.sin, Real.tan, Real.pi, 3.4e38⟩ : libm ℝ)
          ⟨1, 0.25, 0⟩ / 2 ^ 24 = 255
      ∧ pack_pixel (⟨Real.sqrt, Real.cos, Real.sin, Real.tan, Real.pi, 3.4e38⟩ : libm ℝ)
          ⟨1, 0.25, 0⟩ / 2 ^ 16 % 256 = ir
      ∧ pack_pixel (⟨Real.sqrt, Real.cos, Real.sin, Real.tan, Real.pi, 3.4e38⟩ : libm ℝ)
          ⟨1, 0.25, 0⟩ / 2 ^ 8 % 256 = ig
      ∧ pack_pixel (⟨Real.sqrt, Real.cos, Real.sin, Real.tan, Real.pi, 3.4e38⟩ : libm ℝ)
          ⟨1, 0.25, 0⟩ % 256 = ib :=
  have hc : (⟨1, 0.25, 0⟩ : vec3 ℝ).in_unit_range := by
    simp only [vec3.in_unit_range]
    norm_num
  ⟨hc, C13_pack_pixel_bytes 3.4e38 _ hc⟩

/-- The `y` component of a normalised vector lies in `[-1, 1]`. -/
theorem unit_vector_y_abs_le_one (m : libm ℝ) (hs : m.sqrt = Real.sqrt) (d : vec3 ℝ) :
    |(unit_vector m d).y| ≤ 1 := by
  have hle : |d.e1| ≤ Real.sqrt (d.e0 * d.e0 + d.e1 * d.e1 + d.e2 * d.e2) :=
    Real.abs_le_sqrt (by nlinarith [mul_self_nonneg d.e0, mul_self_nonneg d.e2])
  have hnn : 0 ≤ Real.sqrt (d.e0 * d.e0 + d.e1 * d.e1 + d.e2 * d.e2) := Real.sqrt_nonneg _
  simp only [unit_vector, vec3.length, vec3.y, vec3.div_e1, hs]
  rw [abs_div, abs_of_nonneg hnn]
  exact div_le_one_of_le₀ hle hnn

/-- The background colour of `color` lies in `[0, 1]` in every component. -/
theorem background_in_unit_range (y : ℝ) (hy : |y| ≤ 1) :
    ((1.0 - 0.5 * (y + 1.0)) * (⟨1.0, 1.0, 1.0⟩ : vec3 ℝ)
      + (0.5 * (y + 1.0)) * (⟨0.5, 0.7, 1.0⟩ : vec3 ℝ)).in_unit_range := by
  obtain ⟨h1, h2⟩ := abs_le.mp hy
  simp only [vec3.in_unit_range, vec3.add_e0, vec3.add_e1, vec3.add_e2, vec3.smul_e0,
    vec3.smul_e1, vec3.smul_e2]
  refine ⟨⟨?_, ?_⟩, ⟨?_, ?_⟩, ?_, ?_⟩ <;> norm_num <;> linarith

/-- The component-wise product of two colours in `[0, 1]` is in `[0, 1]`. -/
theorem mul_in_unit_range (a c : vec3 F) (ha : a.in_unit_range) (hc : c.in_unit_range) :
    (a * c).in_unit_range := by
  obtain ⟨⟨a00, a01⟩, ⟨a10, a11⟩, ⟨a20, a21⟩⟩ := ha
  obtain ⟨⟨c00, c01⟩, ⟨c10, c11⟩, ⟨c20, c21⟩⟩ := hc
  simp only [vec3.in_unit_range, vec3.mul_e0, vec3.mul_e1, vec3.mul_e2]
  exact ⟨⟨mul_nonneg a00 c00, mul_le_one₀ a01 c00 c01⟩,
    ⟨mul_nonneg a10 c10, mul_le_one₀ a11 c10 c11⟩,
    ⟨mul_nonneg a20 c20, mul_le_one₀ a21 c20 c21⟩⟩

/-- The attenuation that `scatter` returns is the albedo of a Lambertian or a
metal and `(1,1,1)` for a dielectric. -/
theorem scatter_attenuation_in_unit_range (mat : material F) (m : libm F) (rng : Nat → F)
    (fuel : Nat) (refracted0 : vec3 F) (r_in : ray F) (rec : hit_record F) (i : Nat)
    (s : scatter_result F) (j : Nat) (hmat : mat.albedo_in_unit_range)
    (hs : mat.scatter m rng fuel refracted0 r_in rec i = some (s, j)) :
    s.attenuation.in_unit_range := by
  cases mat with
  | lambertian l =>
    simp only [material.scatter, lambertian.scatter] at hs
    cases hq : random_in_unit_sphere rng fuel i with
    | none => simp [hq] at hs
    | some qj =>
      simp only [hq, Option.some.injEq, Prod.mk.injEq] at hs
      rw [← hs.1]
      exact hmat
  | metal mt =>
    simp only [material.scatter, metal.scatter] at hs
    cases hq : random_in_unit_sphere rng fuel i with
    | none => simp [hq] at hs
    | some qj =>
      simp only [hq, Option.some.injEq, Prod.mk.injEq] at hs
      rw [← hs.1]
      exact hmat
  | dielectric d =>
    simp only [material.scatter, Option.some.injEq] at hs
    have : s = (d.scatter m rng refracted0 r_in rec i).1 := by rw [hs]
    rw [this]
    simp only [dielectric.scatter, vec3.in_unit_range]
    norm_num

/-- Every colour that `color` returns in a scene with albedos in `[0, 1]` lies
in `[0, 1]`. -/
theorem color_in_unit_range (m : libm ℝ) (hsq : m.sqrt = Real.sqrt) (rng : Nat → ℝ)
    (fuel : Nat) (refracted0 : vec3 ℝ) (world : hitable ℝ)
    (hworld : ∀ r t_min t_max rec, world r t_min t_max = some rec →
      rec.mat_ptr.albedo_in_unit_range) :
    ∀ (n : Nat) (r : ray ℝ) (depth : Int) (i : Nat) (c : vec3 ℝ) (k : Nat),
      (MAX_DEPTH - depth).toNat ≤ n →
      color m rng fuel refracted0 world r depth i = some (c, k) → c.in_unit_range := by
  have hzero : (⟨0, 0, 0⟩ : vec3 ℝ).in_unit_range := by
    simp [vec3.in_unit_range]
  intro n
  induction n with
  | zero =>
    intro r depth i c k hn hc
    have hd : ¬ depth < MAX_DEPTH := by omega
    cases hw : world r 0.001 m.MAXFLOAT with
    | none =>
      rw [color_miss m rng fuel refracted0 world r depth i hw] at hc
      simp only [Option.some.injEq, Prod.mk.injEq] at hc
      rw [← hc.1]
      exact background_in_unit_range _ (unit_vector_y_abs_le_one m hsq r.direction)
    | some rec =>
      rw [color_hit_deep m rng fuel refracted0 world r depth i rec hw hd] at hc
      simp only [Option.some.injEq, Prod.mk.injEq] at hc
      rw [← hc.1]
      exact hzero
  | succ n ih =>
    intro r depth i c k hn hc
    cases hw : world r 0.001 m.MAXFLOAT with
    | none =>
      rw [color_miss m rng fuel refracted0 world r depth i hw] at hc
      simp only [Option.some.injEq, Prod.mk.injEq] at hc
      rw [← hc.1]
      exact background_in_unit_range _ (unit_vector_y_abs_le_one m hsq r.direction)
    | some rec =>
      by_cases hd : depth < MAX_DEPTH
      · cases hs : rec.mat_ptr.scatter m rng fuel refracted0 r rec i with
        | none =>
          rw [color] at hc
          simp [hw, hd, hs] at hc
        | some sj =>
          obtain ⟨s, j⟩ := sj
          have hatt := scatter_attenuation_in_unit_range rec.mat_ptr m rng fuel refracted0 r rec
            i s j (hworld r _ _ rec hw) hs
          cases hok : s.ok with
          | false =>
            rw [color] at hc
            simp only [hw, hd, dite_true, hs, hok] at hc
            simp only [Bool.false_eq_true, if_false, Option.some.injEq, Prod.mk.injEq] at hc
            rw [← hc.1]
            exact hzero
          | true =>
            rw [color_hit_scatter m rng fuel refracted0 world r depth i rec s j hw hd hs hok]
              at hc
            cases hrec : color m rng fuel refracted0 world s.scattered (depth + 1) j with
            | none => simp [hrec] at hc
            | some ck =>
              obtain ⟨c2, k2⟩ := ck
              simp only [hrec, Option.map_some', Option.some.injEq, Prod.mk.injEq] at hc
              rw [← hc.1]
              exact mul_in_unit_range _ _ hatt
                (ih s.scattered (depth + 1) j c2 k2 (by omega) hrec)
      · rw [color_hit_deep m rng fuel refracted0 world r depth i rec hw hd] at hc
        simp only [Option.some.injEq, Prod.mk.injEq] at hc
        rw [← hc.1]
        exact hzero

/-- The sum of `k` colours in `[0, 1]` lies in `[0, k]` in every component. -/
theorem sum_in_range (l : List (vec3 ℝ)) (h : ∀ v ∈ l, v.in_unit_range) :
    (0 ≤ l.sum.e0 ∧ l.sum.e0 ≤ l.length) ∧ (0 ≤ l.sum.e1 ∧ l.sum.e1 ≤ l.length)
    ∧ (0 ≤ l.sum.e2 ∧ l.sum.e2 ≤ l.length) := by
  induction l with
  | nil =>
    have e0 : ([] : List (vec3 ℝ)).sum.e0 = 0 := rfl
    have e1 : ([] : List (vec3 ℝ)).sum.e1 = 0 := rfl
    have e2 : ([] : List (vec3 ℝ)).sum.e2 = 0 := rfl
    simp [e0, e1, e2]
  | cons a l ih =>
    obtain ⟨⟨a00, a01⟩, ⟨a10, a11⟩, ⟨a20, a21⟩⟩ := h a (List.mem_cons_self a l)
    obtain ⟨⟨s00, s01⟩, ⟨s10, s11⟩, ⟨s20, s21⟩⟩ :=
      ih (fun v hv => h v (List.mem_cons_of_mem a hv))
    have e0 : (a :: l).sum.e0 = a.e0 + l.sum.e0 := by rw [List.sum_cons]; rfl
    have e1 : (a :: l).sum.e1 = a.e1 + l.sum.e1 := by rw [List.sum_cons]; rfl
    have e2 : (a :: l).sum.e2 = a.e2 + l.sum.e2 := by rw [List.sum_cons]; rfl
    rw [e0, e1, e2, List.length_cons]
    push_cast
    refine ⟨⟨?_, ?_⟩, ⟨?_, ?_⟩, ?_, ?_⟩ <;> linarith

/-- The mean of the colours of a non-empty list of colours in `[0, 1]` lies in
`[0, 1]`. -/
theorem mean_in_unit_range (l : List (vec3 ℝ)) (hne : l ≠ [])
    (h : ∀ v ∈ l, v.in_unit_range) :
    (l.sum / (((l.length : Int) * SAMPLES_PER_PIXEL : Int) : ℝ)).in_unit_range := by
  obtain ⟨⟨s00, s01⟩, ⟨s10, s11⟩, ⟨s20, s21⟩⟩ := sum_in_range l h
  have hlen : (0 : ℝ) < l.length := by
    have : 0 < l.length := List.length_pos.mpr hne
    exact_mod_cast this
  have hd : ((((l.length : Int) * SAMPLES_PER_PIXEL : Int)) : ℝ) = (l.length : ℝ) := by
    simp [SAMPLES_PER_PIXEL]
  simp only [vec3.in_unit_range, vec3.div_e0, vec3.div_e1, vec3.div_e2, hd]
  exact ⟨⟨div_nonneg s00 (le_of_lt hlen), (div_le_one hlen).mpr s01⟩,
    ⟨div_nonneg s10 (le_of_lt hlen), (div_le_one hlen).mpr s11⟩,
    ⟨div_nonneg s20 (le_of_lt hlen), (div_le_one hlen).mpr s21⟩⟩

/-- The basis that `update_camera_vectors` computes from the angles `a` (yaw)
and `b` (pitch), in radians, for `world_up = (0,1,0)` and `cos b > 0`. -/
theorem basis_of_angles (m : libm ℝ) (hs : m.sqrt = Real.sqrt) (a b : ℝ)
    (hb : 0 < Real.cos b) :
    unit_vector m ⟨Real.cos a * Real.cos b, Real.sin b, Real.sin a * Real.cos b⟩
        = ⟨Real.cos a * Real.cos b, Real.sin b, Real.sin a * Real.cos b⟩
    ∧ unit_vector m (cross
          (unit_vector m ⟨Real.cos a * Real.cos b, Real.sin b, Real.sin a * Real.cos b⟩)
          ⟨0, 1, 0⟩)
        = ⟨-Real.sin a, 0, Real.cos a⟩
    ∧ unit_vector m (cross
          (unit_vector m (cross
            (unit_vector m ⟨Real.cos a * Real.cos b, Real.sin b, Real.sin a * Real.cos b⟩)
            ⟨0, 1, 0⟩))
          (unit_vector m ⟨Real.cos a * Real.cos b, Real.sin b, Real.sin a * Real.cos b⟩))
        = ⟨-(Real.cos a * Real.sin b), Real.cos b, -(Real.sin a * Real.sin b)⟩ := by
  have ha := Real.sin_sq_add_cos_sq a
  have hb2 := Real.sin_sq_add_cos_sq b
  have hf : unit_vector m ⟨Real.cos a * Real.cos b, Real.sin b, Real.sin a * Real.cos b⟩
      = ⟨Real.cos a * Real.cos b, Real.sin b, Real.sin a * Real.cos b⟩ := by
    have h1 : Real.cos a * Real.cos b * (Real.cos a * Real.cos b) + Real.sin b * Real.sin b
        + Real.sin a * Real.cos b * (Real.sin a * Real.cos b) = 1 := by
      linear_combination (Real.cos b) ^ 2 * ha + hb2
    simp only [unit_vector, vec3.length, hs, h1, Real.sqrt_one]
    ext <;> simp
  have hr : unit_vector m (cross
      (⟨Real.cos a * Real.cos b, Real.sin b, Real.sin a * Real.cos b⟩ : vec3 ℝ) ⟨0, 1, 0⟩)
      = ⟨-Real.sin a, 0, Real.cos a⟩ := by
    have h1 : (Real.sin b * 0 - Real.sin a * Real.cos b * 1)
          * (Real.sin b * 0 - Real.sin a * Real.cos b * 1)
        + -(Real.cos a * Real.cos b * 0 - Real.sin a * Real.cos b * 0)
          * -(Real.cos a * Real.cos b * 0 - Real.sin a * Real.cos b * 0)
        + (Real.cos a * Real.cos b * 1 - Real.sin b * 0)
          * (Real.cos a * Real.cos b * 1 - Real.sin b * 0) = (Real.cos b) ^ 2 := by
      linear_combination (Real.cos b) ^ 2 * ha
    simp only [unit_vector, vec3.length, hs, cross, h1, Real.sqrt_sq (le_of_lt hb)]
    have hne : Real.cos b ≠ 0 := ne_of_gt hb
    ext <;> simp <;> field_simp
  have hu : unit_vector m (cross (⟨-Real.sin a, 0, Real.cos a⟩ : vec3 ℝ)
      ⟨Real.cos a * Real.cos b, Real.sin b, Real.sin a * Real.cos b⟩)
      = ⟨-(Real.cos a * Real.sin b), Real.cos b, -(Real.sin a * Real.sin b)⟩ := by
    have h1 : (0 * (Real.sin a * Real.cos b) - Real.cos a * Real.sin b)
          * (0 * (Real.sin a * Real.cos b) - Real.cos a * Real.sin b)
        + -(-Real.sin a * (Real.sin a * Real.cos b) - Real.cos a * (Real.cos a * Real.cos b))
          * -(-Real.sin a * (Real.sin a * Real.cos b) - Real.cos a * (Real.cos a * Real.cos b))
        + (-Real.sin a * Real.sin b - 0 * (Real.cos a * Real.cos b))
          * (-Real.sin a * Real.sin b - 0 * (Real.cos a * Real.cos b)) = 1 := by
      linear_combination ((Real.sin b) ^ 2
        + (Real.cos b) ^ 2 * ((Real.sin a) ^ 2 + (Real.cos a) ^ 2 + 1)) * ha + hb2
    simp only [unit_vector, vec3.length, hs, cross, h1, Real.sqrt_one]
    ext <;> simp
    linear_combination (Real.cos b) * ha
  rw [hf, hr, hu]
  exact ⟨rfl, rfl, rfl⟩

/-- The derived vectors that `update_camera_vectors` writes depend only on yaw,
pitch and world_up, so a camera whose derived vectors are up to date keeps them
through any call. -/
theorem camera.call_in_sync (m : libm F) (c : camera F) (call : camera_call F)
    (h : c.front = (c.update_camera_vectors m).front
      ∧ c.right = (c.update_camera_vectors m).right
      ∧ c.up = (c.update_camera_vectors m).up) :
    (c.call m call).front = ((c.call m call).update_camera_vectors m).front
    ∧ (c.call m call).right = ((c.call m call).update_camera_vectors m).right
    ∧ (c.call m call).up = ((c.call m call).update_camera_vectors m).up := by
  cases call with
  | keyboard direction velocity =>
    simp only [camera.call]
    rw [camera.process_keyboard_eq]
    split_ifs
    · exact ⟨rfl, rfl, rfl⟩
    · exact ⟨rfl, rfl, rfl⟩
    · exact ⟨rfl, rfl, rfl⟩
    · exact ⟨rfl, rfl, rfl⟩
    · exact ⟨rfl, rfl, rfl⟩
    · exact ⟨rfl, rfl, rfl⟩
    · exact h
  | mouse xoffset yoffset =>
    simp only [camera.call]
    unfold camera.process_mouse
    by_cases h0 : xoffset = 0 ∧ yoffset = 0
    · rw [if_pos h0]
      exact h
    · rw [if_neg h0]
      exact ⟨rfl, rfl, rfl⟩

/-- No call changes world_up. -/
theorem camera.call_world_up (m : libm F) (c : camera F) (call : camera_call F) :
    (c.call m call).world_up = c.world_up := by
  cases call with
  | keyboard direction velocity =>
    exact (camera.process_keyboard_angles m c direction velocity).2.2
  | mouse xoffset yoffset =>
    simp only [camera.call]
    unfold camera.process_mouse
    by_cases h0 : xoffset = 0 ∧ yoffset = 0
    · rw [if_pos h0]
    · rw [if_neg h0]
      simp only [camera.update_camera_vectors_world_up]
      split_ifs <;> rfl

/-- Through a sequence of calls the derived vectors stay up to date and
world_up stays as it was. -/
theorem camera.run_in_sync (m : libm F) (calls : List (camera_call F)) :
    ∀ c : camera F,
      (c.front = (c.update_camera_vectors m).front
        ∧ c.right = (c.update_camera_vectors m).right
        ∧ c.up = (c.update_camera_vectors m).up) →
      ((c.run m calls).front = ((c.run m calls).update_camera_vectors m).front
        ∧ (c.run m calls).right = ((c.run m calls).update_camera_vectors m).right
        ∧ (c.run m calls).up = ((c.run m calls).update_camera_vectors m).up)
      ∧ (c.run m calls).world_up = c.world_up := by
  induction calls with
  | nil => intro c h; exact ⟨h, rfl⟩
  | cons call rest ih =>
    intro c h
    obtain ⟨h1, h2⟩ := ih (c.call m call) (camera.call_in_sync m c call h)
    exact ⟨h1, h2.trans (camera.call_world_up m c call)⟩

/-- The constructor leaves the derived vectors up to date, and `world_up` is
the `vup` it was given. -/
theorem camera.new_in_sync (m : libm F) (lookfrom lookat vup : vec3 F) (vfov aspect : F) :
    ((camera.new m lookfrom lookat vup vfov aspect).front
        = ((camera.new m lookfrom lookat vup vfov aspect).update_camera_vectors m).front
      ∧ (camera.new m lookfrom lookat vup vfov aspect).right
        = ((camera.new m lookfrom lookat vup vfov aspect).update_camera_vectors m).right
      ∧ (camera.new m lookfrom lookat vup vfov aspect).up
        = ((camera.new m lookfrom lookat vup vfov aspect).update_camera_vectors m).up)
    ∧ (camera.new m lookfrom lookat vup vfov aspect).world_up = vup :=
  ⟨⟨rfl, rfl, rfl⟩, rfl⟩

/-- The derived vectors written by `update_camera_vectors` for
`world_up = (0,1,0)` and a pitch in `[-89, 89]`. -/
theorem camera.update_basis (maxf : ℝ) (c : camera ℝ) (hup : c.world_up = ⟨0, 1, 0⟩)
    (hp : -89 ≤ c.pitch ∧ c.pitch ≤ 89) :
    0 < Real.cos (c.pitch * Real.pi / 180)
    ∧ (c.update_camera_vectors
        (⟨Real.sqrt, Real.cos, Real.sin, Real.tan, Real.pi, maxf⟩ : libm ℝ)).front
      = ⟨Real.cos (c.yaw * Real.pi / 180) * Real.cos (c.pitch * Real.pi / 180),
          Real.sin (c.pitch * Real.pi / 180),
          Real.sin (c.yaw * Real.pi / 180) * Real.cos (c.pitch * Real.pi / 180)⟩
    ∧ (c.update_camera_vectors
        (⟨Real.sqrt, Real.cos, Real.sin, Real.tan, Real.pi, maxf⟩ : libm ℝ)).right
      = ⟨-Real.sin (c.yaw * Real.pi / 180), 0, Real.cos (c.yaw * Real.pi / 180)⟩
    ∧ (c.update_camera_vectors
        (⟨Real.sqrt, Real.cos, Real.sin, Real.tan, Real.pi, maxf⟩ : libm ℝ)).up
      = ⟨-(Real.cos (c.yaw * Real.pi / 180) * Real.sin (c.pitch * Real.pi / 180)),
          Real.cos (c.pitch * Real.pi / 180),
          -(Real.sin (c.yaw * Real.pi / 180) * Real.sin (c.pitch * Real.pi / 180))⟩ := by
  have hcos : 0 < Real.cos (c.pitch * Real.pi / 180) := by
    apply Real.cos_pos_of_mem_Ioo
    constructor <;> nlinarith [Real.pi_pos, hp.1, hp.2]
  obtain ⟨h1, h2, h3⟩ := basis_of_angles
    (⟨Real.sqrt, Real.cos, Real.sin, Real.tan, Real.pi, maxf⟩ : libm ℝ) rfl
    (c.yaw * Real.pi / 180) (c.pitch * Real.pi / 180) hcos
  have e180 : (180.0 : ℝ) = 180 := by norm_num
  refine ⟨hcos, ?_, ?_, ?_⟩
  · simp only [camera.update_camera_vectors, e180]
    exact h1
  · simp only [camera.update_camera_vectors, e180, hup]
    exact h2
  · simp only [camera.update_camera_vectors, e180, hup]
    exact h3

/-- C12: for a camera constructed with `world_up = (0,1,0)`, after construction
and after every sequence of `process_keyboard` / `process_mouse` calls with any
arguments, `front = (cos(yaw)cos(pitch), sin(pitch), sin(yaw)cos(pitch))` for
the current yaw and pitch in radians, `front`, `right` and `up` have length 1
and are pairwise orthogonal, and `front x world_up` is not the zero vector. -/
theorem C12_orthonormal_basis (maxf : ℝ) (lookfrom lookat : vec3 ℝ) (vfov aspect : ℝ)
    (calls : List (camera_call ℝ)) (c : camera ℝ)
    (hc : c = (camera.new (⟨Real.sqrt, Real.cos, Real.sin, Real.tan, Real.pi, maxf⟩ : libm ℝ)
        lookfrom lookat ⟨0, 1, 0⟩ vfov aspect).run
        (⟨Real.sqrt, Real.cos, Real.sin, Real.tan, Real.pi, maxf⟩ : libm ℝ) calls) :
    c.front = ⟨Real.cos (c.yaw * Real.pi / 180) * Real.cos (c.pitch * Real.pi / 180),
        Real.sin (c.pitch * Real.pi / 180),
        Real.sin (c.yaw * Real.pi / 180) * Real.cos (c.pitch * Real.pi / 180)⟩
    ∧ c.front.length (⟨Real.sqrt, Real.cos, Real.sin, Real.tan, Real.pi, maxf⟩ : libm ℝ) = 1
    ∧ c.right.length (⟨Real.sqrt, Real.cos, Real.sin, Real.tan, Real.pi, maxf⟩ : libm ℝ) = 1
    ∧ c.up.length (⟨Real.sqrt, Real.cos, Real.sin, Real.tan, Real.pi, maxf⟩ : libm ℝ) = 1
    ∧ dot c.front c.right = 0 ∧ dot c.front c.up = 0 ∧ dot c.right c.up = 0
    ∧ cross c.front c.world_up ≠ 0 := by
  have hinit : (camera.new (⟨Real.sqrt, Real.cos, Real.sin, Real.tan, Real.pi, maxf⟩ : libm ℝ)
      lookfrom lookat ⟨0, 1, 0⟩ vfov aspect).pitch = 0 := camera.new_pitch _ _ _ _ _ _
  have hpitch := camera.run_pitch
    (⟨Real.sqrt, Real.cos, Real.sin, Real.tan, Real.pi, maxf⟩ : libm ℝ) calls
    (camera.new _ lookfrom lookat ⟨0, 1, 0⟩ vfov aspect)
    (by rw [hinit]; constructor <;> norm_num)
  obtain ⟨hsync, hvup⟩ := camera.new_in_sync
    (⟨Real.sqrt, Real.cos, Real.sin, Real.tan, Real.pi, maxf⟩ : libm ℝ)
    lookfrom lookat ⟨0, 1, 0⟩ vfov aspect
  obtain ⟨⟨hf, hr, hu⟩, hw⟩ := camera.run_in_sync
    (⟨Real.sqrt, Real.cos, Real.sin, Real.tan, Real.pi, maxf⟩ : libm ℝ) calls
    (camera.new _ lookfrom lookat ⟨0, 1, 0⟩ vfov aspect) hsync
  rw [← hc] at hpitch hf hr hu hw
  have hup : c.world_up = ⟨0, 1, 0⟩ := hw.trans hvup
  obtain ⟨hcos, bf, br, bu⟩ := camera.update_basis maxf c hup hpitch
  rw [bf] at hf
  rw [br] at hr
  rw [bu] at hu
  have ha := Real.sin_sq_add_cos_sq (c.yaw * Real.pi / 180)
  have hb := Real.sin_sq_add_cos_sq (c.pitch * Real.pi / 180)
  refine ⟨hf, ?_, ?_, ?_, ?_, ?_, ?_, ?_⟩
  · rw [hf]
    show Real.sqrt _ = 1
    rw [Real.sqrt_eq_one]
    linear_combination (Real.cos (c.pitch * Real.pi / 180)) ^ 2 * ha + hb
  · rw [hr]
    show Real.sqrt _ = 1
    rw [Real.sqrt_eq_one]
    linear_combination ha
  · rw [hu]
    show Real.sqrt _ = 1
    rw [Real.sqrt_eq_one]
    linear_combination (Real.sin (c.pitch * Real.pi / 180)) ^ 2 * ha + hb
  · rw [hf, hr]
    simp only [dot]
    ring
  · rw [hf, hu]
    simp only [dot]
    linear_combination (-(Real.cos (c.pitch * Real.pi / 180))
      * Real.sin (c.pitch * Real.pi / 180)) * ha
  · rw [hr, hu]
    simp only [dot]
    ring
  · rw [hf, hup]
    intro h0
    have h2 := congrArg vec3.e2 h0
    have h1 := congrArg vec3.e0 h0
    simp only [cross, vec3.zero_e2, vec3.zero_e0] at h1 h2
    have hc0 : Real.cos (c.yaw * Real.pi / 180) = 0 := by
      have : Real.cos (c.yaw * Real.pi / 180) * Real.cos (c.pitch * Real.pi / 180) = 0 := by
        linarith
      rcases mul_eq_zero.mp this with h | h
      · exact h
      · exact absurd h (ne_of_gt hcos)
    have hs0 : Real.sin (c.yaw * Real.pi / 180) = 0 := by
      have : Real.sin (c.yaw * Real.pi / 180) * Real.cos (c.pitch * Real.pi / 180) = 0 := by
        linarith
      rcases mul_eq_zero.mp this with h | h
      · exact h
      · exact absurd h (ne_of_gt hcos)
    rw [hc0, hs0] at ha
    norm_num at ha

/-- C12 at a concrete input: the camera of `main` after a mouse move and a
forward key press. -/
theorem C12_orthonormal_basis_witness :
    dot ((camera.new (⟨Real.sqrt, Real.cos, Real.sin, Real.tan, Real.pi, 3.4e38⟩ : libm ℝ)
        ⟨0, 0, 0⟩ ⟨0, 0, -1⟩ ⟨0, 1, 0⟩ 90 2).run
        (⟨Real.sqrt, Real.cos, Real.sin, Real.tan, Real.pi, 3.4e38⟩ : libm ℝ)
        [camera_call.mouse 10 (-5), camera_call.keyboard 0 0.1]).front
      ((camera.new (⟨Real.sqrt, Real.cos, Real.sin, Real.tan, Real.pi, 3.4e38⟩ : libm ℝ)
        ⟨0, 0, 0⟩ ⟨0, 0, -1⟩ ⟨0, 1, 0⟩ 90 2).run
        (⟨Real.sqrt, Real.cos, Real.sin, Real.tan, Real.pi, 3.4e38⟩ : libm ℝ)
        [camera_call.mouse 10 (-5), camera_call.keyboard 0 0.1]).right = 0 :=
  (C12_orthonormal_basis 3.4e38 ⟨0, 0, 0⟩ ⟨0, 0, -1⟩ 90 2
    [camera_call.mouse 10 (-5), camera_call.keyboard 0 0.1] _ rfl).2.2.2.2.1

theorem main_scene_eq : (main_scene : List (sphere F))
    = [ground_sphere, left_sphere, metal_sphere] := rfl

/-- A sphere whose quadratic has no positive discriminant is not hit. -/
theorem sphere_hit_of_discriminant_nonpos (m : libm F) (s : sphere F) (r : ray F)
    (t_min t_max : F)
    (hd : dot (r.origin - s.center) r.direction * dot (r.origin - s.center) r.direction
      - dot r.direction r.direction
        * (dot (r.origin - s.center) (r.origin - s.center) - s.radius * s.radius) ≤ 0) :
    s.hit m r t_min t_max = none := by
  unfold sphere.hit
  simp only [not_lt.mpr hd, gt_iff_lt, if_false]

/-- A sphere whose nearer root lies in the range is hit there. -/
theorem sphere_hit_of_near_root (m : libm F) (s : sphere F) (r : ray F) (t_min t_max : F)
    (hd : dot (r.origin - s.center) r.direction * dot (r.origin - s.center) r.direction
      - dot r.direction r.direction
        * (dot (r.origin - s.center) (r.origin - s.center) - s.radius * s.radius) > 0)
    (ht : (-dot (r.origin - s.center) r.direction
        - m.sqrt (dot (r.origin - s.center) r.direction * dot (r.origin - s.center) r.direction
          - dot r.direction r.direction
            * (dot (r.origin - s.center) (r.origin - s.center) - s.radius * s.radius)))
        / dot r.direction r.direction < t_max
      ∧ (-dot (r.origin - s.center) r.direction
        - m.sqrt (dot (r.origin - s.center) r.direction * dot (r.origin - s.center) r.direction
          - dot r.direction r.direction
            * (dot (r.origin - s.center) (r.origin - s.center) - s.radius * s.radius)))
        / dot r.direction r.direction > t_min) :
    s.hit m r t_min t_max
      = some ⟨(-dot (r.origin - s.center) r.direction
          - m.sqrt (dot (r.origin - s.center) r.direction
              * dot (r.origin - s.center) r.direction
            - dot r.direction r.direction
              * (dot (r.origin - s.center) (r.origin - s.center) - s.radius * s.radius)))
          / dot r.direction r.direction,
        r.point_at_parameter ((-dot (r.origin - s.center) r.direction
          - m.sqrt (dot (r.origin - s.center) r.direction
              * dot (r.origin - s.center) r.direction
            - dot r.direction r.direction
              * (dot (r.origin - s.center) (r.origin - s.center) - s.radius * s.radius)))
          / dot r.direction r.direction),
        (r.point_at_parameter ((-dot (r.origin - s.center) r.direction
          - m.sqrt (dot (r.origin - s.center) r.direction
              * dot (r.origin - s.center) r.direction
            - dot r.direction r.direction
              * (dot (r.origin - s.center) (r.origin - s.center) - s.radius * s.radius)))
          / dot r.direction r.direction) - s.center) / s.radius,
        s.mat_ptr⟩ := by
  unfold sphere.hit
  simp only [hd, if_true, ht, and_self]

/-- The view rays of the camera that `main` constructs. -/
theorem main_camera_get_ray (maxf s t : ℝ) :
    (main_camera (⟨Real.sqrt, Real.cos, Real.sin, Real.tan, Real.pi, maxf⟩ : libm ℝ)).get_ray s t
      = ⟨⟨0, 0, 0⟩, ⟨4 * s - 2, 2 * t - 1, -1⟩⟩ := by
  have htan : Real.tan (90 * Real.pi / 180.0 / 2) = 1 := by
    rw [show (90 * Real.pi / 180.0 / 2 : ℝ) = Real.pi / 4 by norm_num; ring]
    exact Real.tan_pi_div_four
  have hw : Real.sqrt ((0 - 0) * (0 - 0) + (0 - 0) * (0 - 0) + (0 - -1) * (0 - -1)) = 1 := by
    rw [show ((0 - 0) * (0 - 0) + (0 - 0) * (0 - 0) + (0 - -1) * (0 - -1) : ℝ) = 1 by norm_num]
    exact Real.sqrt_one
  simp only [main_camera, camera.new, camera.get_ray, camera.update_camera_vectors_origin,
    unit_vector, vec3.length, cross, vec3.sub_e0, vec3.sub_e1, vec3.sub_e2, vec3.div_e0,
    vec3.div_e1, vec3.div_e2, htan, hw, SCREEN_WIDTH, SCREEN_HEIGHT]
  norm_num
  ext <;> simp <;> ring

/-- The result of `sphere.hit` from the three coefficients of the quadratic. -/
theorem sphere_hit_of_coefficients (m : libm F) (s : sphere F) (r : ray F) (t_min t_max : F)
    (a b c : F) (ha : dot r.direction r.direction = a)
    (hb : dot (r.origin - s.center) r.direction = b)
    (hc : dot (r.origin - s.center) (r.origin - s.center) - s.radius * s.radius = c)
    (hd : b * b - a * c > 0)
    (ht : (-b - m.sqrt (b * b - a * c)) / a < t_max ∧ (-b - m.sqrt (b * b - a * c)) / a > t_min) :
    s.hit m r t_min t_max
      = some ⟨(-b - m.sqrt (b * b - a * c)) / a,
          r.point_at_parameter ((-b - m.sqrt (b * b - a * c)) / a),
          (r.point_at_parameter ((-b - m.sqrt (b * b - a * c)) / a) - s.center) / s.radius,
          s.mat_ptr⟩ := by
  subst ha hb hc
  exact sphere_hit_of_near_root m s r t_min t_max hd ht

/-- The ray through the image centre, direction `(0,0,-1)` from the origin,
misses the three spheres of `main`. -/
theorem centre_ray_misses (m : libm ℝ) (t_min t_max : ℝ) :
    ground_sphere.hit m ⟨⟨0, 0, 0⟩, ⟨0, 0, -1⟩⟩ t_min t_max = none
    ∧ left_sphere.hit m ⟨⟨0, 0, 0⟩, ⟨0, 0, -1⟩⟩ t_min t_max = none
    ∧ metal_sphere.hit m ⟨⟨0, 0, 0⟩, ⟨0, 0, -1⟩⟩ t_min t_max = none := by
  refine ⟨?_, ?_, ?_⟩ <;> apply sphere_hit_of_discriminant_nonpos
  · simp only [ground_sphere, dot, vec3.sub_e0, vec3.sub_e1, vec3.sub_e2]
    norm_num
  · simp only [left_sphere, dot, vec3.sub_e0, vec3.sub_e1, vec3.sub_e2]
    norm_num
  · simp only [metal_sphere, dot, vec3.sub_e0, vec3.sub_e1, vec3.sub_e2]
    norm_num

/-- The ray of direction `(0.6,0,-1)` from the origin misses the ground and the
left sphere. -/
theorem shifted_ray_misses (m : libm ℝ) (t_min t_max : ℝ) :
    ground_sphere.hit m ⟨⟨0, 0, 0⟩, ⟨0.6, 0, -1⟩⟩ t_min t_max = none
    ∧ left_sphere.hit m ⟨⟨0, 0, 0⟩, ⟨0.6, 0, -1⟩⟩ t_min t_max = none := by
  refine ⟨?_, ?_⟩ <;> apply sphere_hit_of_discriminant_nonpos
  · simp only [ground_sphere, dot, vec3.sub_e0, vec3.sub_e1, vec3.sub_e2]
    norm_num
  · simp only [left_sphere, dot, vec3.sub_e0, vec3.sub_e1, vec3.sub_e2]
    norm_num

/-- The ray of direction `(0.6,0,-1)` from the origin hits the metal sphere at
`t = (34/25 - sqrt(17/50)) / (34/25)`, with a unit normal facing the ray. -/
theorem shifted_ray_hits_metal (m : libm ℝ) (hs : m.sqrt = Real.sqrt) (t_max : ℝ)
    (ht : 1 ≤ t_max) :
    ∃ rec : hit_record ℝ,
      metal_sphere.hit m ⟨⟨0, 0, 0⟩, ⟨0.6, 0, -1⟩⟩ 0.001 t_max = some rec
      ∧ rec.mat_ptr = material.metal (metal.new ⟨0.1, 0.1, 0.1⟩ 0.0)
      ∧ rec.normal.squared_length = 1
      ∧ dot (⟨0.6, 0, -1⟩ : vec3 ℝ) rec.normal < 0
      ∧ 0.001 < rec.t ∧ rec.t < 1 := by
  have hS2 : Real.sqrt (17 / 50) * Real.sqrt (17 / 50) = 17 / 50 :=
    Real.mul_self_sqrt (by norm_num)
  have hSlo : 1 / 2 < Real.sqrt (17 / 50) := by
    rw [Real.lt_sqrt (by norm_num)]
    norm_num
  have hShi : Real.sqrt (17 / 50) < 3 / 5 := by
    rw [Real.sqrt_lt' (by norm_num)]
    norm_num
  have hval : (-(34 / 25) * -(34 / 25) - 34 / 25 * (111 / 100) : ℝ) = 17 / 50 := by norm_num
  obtain ⟨S, hS⟩ : ∃ S, Real.sqrt (17 / 50) = S := ⟨_, rfl⟩
  rw [hS] at hS2 hSlo hShi
  have hit := sphere_hit_of_coefficients m metal_sphere ⟨⟨0, 0, 0⟩, ⟨0.6, 0, -1⟩⟩ 0.001 t_max
    (34 / 25) (-(34 / 25)) (111 / 100)
    (by simp only [dot]; norm_num)
    (by simp only [metal_sphere, dot, vec3.sub_e0, vec3.sub_e1, vec3.sub_e2]; norm_num)
    (by simp only [metal_sphere, dot, vec3.sub_e0, vec3.sub_e1, vec3.sub_e2]; norm_num)
    (by rw [hval]; norm_num)
    (by
      rw [hval, hs, hS]
      constructor
      · rw [div_lt_iff₀ (by norm_num)]
        linarith
      · rw [gt_iff_lt, lt_div_iff₀ (by norm_num)]
        linarith)
  rw [hval, hs, hS] at hit
  refine ⟨_, hit, rfl, ?_, ?_, ?_, ?_⟩
  · simp only [vec3.squared_length, ray.point_at_parameter, metal_sphere, vec3.sub_e0,
      vec3.sub_e1, vec3.sub_e2, vec3.add_e0, vec3.add_e1, vec3.add_e2, vec3.smul_e0,
      vec3.smul_e1, vec3.smul_e2, vec3.div_e0, vec3.div_e1, vec3.div_e2]
    norm_num
    field_simp
    ring_nf
    nlinarith [hS2]
  · simp only [dot, ray.point_at_parameter, metal_sphere, vec3.sub_e0,
      vec3.sub_e1, vec3.sub_e2, vec3.add_e0, vec3.add_e1, vec3.add_e2, vec3.smul_e0,
      vec3.smul_e1, vec3.smul_e2, vec3.div_e0, vec3.div_e1, vec3.div_e2]
    norm_num
    field_simp
    ring_nf
    nlinarith [hS2]
  · show (0.001 : ℝ) < (- -(34 / 25) - S) / (34 / 25)
    rw [lt_div_iff₀ (by norm_num)]
    linarith
  · show (- -(34 / 25) - S) / (34 / 25) < (1 : ℝ)
    rw [div_lt_iff₀ (by norm_num)]
    linarith

/-- A sphere that is missed does not change the result of the list. -/
theorem hitable_list_hit_cons_none (m : libm F) (s : sphere F) (l : List (sphere F))
    (r : ray F) (t_min t_max : F) (h : s.hit m r t_min t_max = none) :
    hitable_list.hit m (s :: l) r t_min t_max = hitable_list.hit m l r t_min t_max := by
  simp only [hitable_list.hit, List.foldl_cons, h]

/-- The result of a list of one sphere is the result of the sphere. -/
theorem hitable_list_hit_single (m : libm F) (s : sphere F) (r : ray F) (t_min t_max : F) :
    hitable_list.hit m [s] r t_min t_max = s.hit m r t_min t_max := by
  simp only [hitable_list.hit, List.foldl_cons, List.foldl_nil]
  cases s.hit m r t_min t_max <;> rfl

/-- A metal of fuzz 0 does not absorb a ray that meets a unit normal from the
front. -/
theorem metal_mirror_not_absorbed (a : vec3 ℝ) (m : libm ℝ) (hs : m.sqrt = Real.sqrt)
    (rng : Nat → ℝ) (fuel : Nat) (r_in : ray ℝ) (rec : hit_record ℝ) (i : Nat) (q : vec3 ℝ)
    (j : Nat) (hq : random_in_unit_sphere rng fuel i = some (q, j))
    (hdir : r_in.direction ≠ 0) (hn : rec.normal.squared_length = 1)
    (hfront : dot r_in.direction rec.normal < 0) :
    ∃ s : scatter_result ℝ,
      (metal.new a 0.0).scatter m rng fuel r_in rec i = some (s, j)
      ∧ s.ok = true ∧ s.attenuation = a := by
  have hlen := vec3.length_pos m hs r_in.direction hdir
  have hu : dot (unit_vector m r_in.direction) rec.normal < 0 := by
    have : dot (unit_vector m r_in.direction) rec.normal
        = dot r_in.direction rec.normal / r_in.direction.length m := by
      simp only [dot, unit_vector, vec3.div_e0, vec3.div_e1, vec3.div_e2]
      ring
    rw [this]
    exact div_neg_of_neg_of_pos hfront hlen
  have hfuzz : (metal.new a (0.0 : ℝ)).fuzz = 0 := by
    show (if (0.0 : ℝ) < 1 then (0.0 : ℝ) else 1) = 0
    norm_num
  refine ⟨_, by simp only [metal.scatter, hq]; rfl, ?_, rfl⟩
  simp only [decide_eq_true_eq, hfuzz]
  have he : dot (reflect (unit_vector m r_in.direction) rec.normal + (0 : ℝ) * q) rec.normal
      = dot (unit_vector m r_in.direction) rec.normal
        * (1 - 2 * rec.normal.squared_length) := by
    simp only [dot, reflect, vec3.squared_length, vec3.add_e0, vec3.add_e1, vec3.add_e2,
      vec3.sub_e0, vec3.sub_e1, vec3.sub_e2, vec3.smul_e0, vec3.smul_e1, vec3.smul_e2]
    ring
  rw [he, hn]
  nlinarith

/-- C15 as stated fails: in the scene of `main`, and in the two-sphere scene of
the ground and the metal sphere, the ray through the image centre,
`get_ray(0.5, 0.5)` of the camera that `main` constructs, has direction
`(0,0,-1)` and no sphere intersection at all: the metal sphere is not hit. -/
theorem C15_counterexample :
    (main_camera (⟨Real.sqrt, Real.cos, Real.sin, Real.tan, Real.pi, 3.4e38⟩ : libm ℝ)).get_ray
        0.5 0.5 = ⟨⟨0, 0, 0⟩, ⟨0, 0, -1⟩⟩
    ∧ metal_sphere.hit (⟨Real.sqrt, Real.cos, Real.sin, Real.tan, Real.pi, 3.4e38⟩ : libm ℝ)
        ((main_camera
          (⟨Real.sqrt, Real.cos, Real.sin, Real.tan, Real.pi, 3.4e38⟩ : libm ℝ)).get_ray 0.5 0.5)
        0.001 3.4e38 = none
    ∧ hitable_list.hit (⟨Real.sqrt, Real.cos, Real.sin, Real.tan, Real.pi, 3.4e38⟩ : libm ℝ)
        [ground_sphere, metal_sphere]
        ((main_camera
          (⟨Real.sqrt, Real.cos, Real.sin, Real.tan, Real.pi, 3.4e38⟩ : libm ℝ)).get_ray 0.5 0.5)
        0.001 3.4e38 = none
    ∧ hitable_list.hit (⟨Real.sqrt, Real.cos, Real.sin, Real.tan, Real.pi, 3.4e38⟩ : libm ℝ)
        main_scene
        ((main_camera
          (⟨Real.sqrt, Real.cos, Real.sin, Real.tan, Real.pi, 3.4e38⟩ : libm ℝ)).get_ray 0.5 0.5)
        0.001 3.4e38 = none := by
  have hray : (main_camera
      (⟨Real.sqrt, Real.cos, Real.sin, Real.tan, Real.pi, 3.4e38⟩ : libm ℝ)).get_ray 0.5 0.5
      = ⟨⟨0, 0, 0⟩, ⟨0, 0, -1⟩⟩ := by
    rw [main_camera_get_ray]
    norm_num
  obtain ⟨hg, hl, hm⟩ := centre_ray_misses
    (⟨Real.sqrt, Real.cos, Real.sin, Real.tan, Real.pi, 3.4e38⟩ : libm ℝ) 0.001 3.4e38
  rw [hray]
  refine ⟨rfl, hm, ?_, ?_⟩
  · rw [hitable_list_hit_cons_none _ _ _ _ _ _ hg, hitable_list_hit_single, hm]
  · rw [main_scene_eq, hitable_list_hit_cons_none _ _ _ _ _ _ hg,
      hitable_list_hit_cons_none _ _ _ _ _ _ hl, hitable_list_hit_single, hm]

/-- C15, amended: in the scene of `main` (and in the two-sphere scene of the
ground and the metal sphere), seen from the camera that `main` constructs, the
ray through the image centre `get_ray(0.5, 0.5)` has direction `(0,0,-1)` and
hits no sphere; the ray `get_ray(0.65, 0.5)`, of direction `(0.6,0,-1)`, has its
closest intersection in `(0.001, MAXFLOAT)` on the metal sphere and not on the
ground, and `metal::scatter` at that hit is not absorbed and returns the
metal's albedo `(0.1,0.1,0.1)` as attenuation. -/
theorem C15_metal_sphere_ray (maxf : ℝ) (scene : List (sphere ℝ)) (rng : Nat → ℝ) (fuel : Nat)
    (refracted0 : vec3 ℝ) (i : Nat) (q : vec3 ℝ) (j : Nat)
    (hmax : 1 ≤ maxf)
    (hscene : scene = main_scene ∨ scene = [ground_sphere, metal_sphere])
    (hq : random_in_unit_sphere rng fuel i = some (q, j)) :
    ((main_camera (⟨Real.sqrt, Real.cos, Real.sin, Real.tan, Real.pi, maxf⟩ : libm ℝ)).get_ray
        0.5 0.5 = ⟨⟨0, 0, 0⟩, ⟨0, 0, -1⟩⟩
      ∧ hitable_list.hit (⟨Real.sqrt, Real.cos, Real.sin, Real.tan, Real.pi, maxf⟩ : libm ℝ)
          scene
          ((main_camera
            (⟨Real.sqrt, Real.cos, Real.sin, Real.tan, Real.pi, maxf⟩ : libm ℝ)).get_ray 0.5 0.5)
          0.001 maxf = none)
    ∧ (main_camera (⟨Real.sqrt, Real.cos, Real.sin, Real.tan, Real.pi, maxf⟩ : libm ℝ)).get_ray
        0.65 0.5 = ⟨⟨0, 0, 0⟩, ⟨0.6, 0, -1⟩⟩
    ∧ ground_sphere.hit (⟨Real.sqrt, Real.cos, Real.sin, Real.tan, Real.pi, maxf⟩ : libm ℝ)
        ((main_camera
          (⟨Real.sqrt, Real.cos, Real.sin, Real.tan, Real.pi, maxf⟩ : libm ℝ)).get_ray 0.65 0.5)
        0.001 maxf = none
    ∧ ∃ rec : hit_record ℝ,
        hitable_list.hit (⟨Real.sqrt, Real.cos, Real.sin, Real.tan, Real.pi, maxf⟩ : libm ℝ)
          scene
          ((main_camera
            (⟨Real.sqrt, Real.cos, Real.sin, Real.tan, Real.pi, maxf⟩ : libm ℝ)).get_ray 0.65 0.5)
          0.001 maxf = some rec
        ∧ metal_sphere.hit (⟨Real.sqrt, Real.cos, Real.sin, Real.tan, Real.pi, maxf⟩ : libm ℝ)
          ((main_camera
            (⟨Real.sqrt, Real.cos, Real.sin, Real.tan, Real.pi, maxf⟩ : libm ℝ)).get_ray 0.65 0.5)
          0.001 maxf = some rec
        ∧ rec.mat_ptr = material.metal (metal.new ⟨0.1, 0.1, 0.1⟩ 0.0)
        ∧ ∃ s : scatter_result ℝ,
            rec.mat_ptr.scatter (⟨Real.sqrt, Real.cos, Real.sin, Real.tan, Real.pi, maxf⟩ : libm ℝ)
              rng fuel refracted0
              ((main_camera
                (⟨Real.sqrt, Real.cos, Real.sin, Real.tan, Real.pi, maxf⟩ : libm ℝ)).get_ray
                0.65 0.5) rec i = some (s, j)
            ∧ s.ok = true
            ∧ s.attenuation = ⟨0.1, 0.1, 0.1⟩ := by
  have hray1 : (main_camera
      (⟨Real.sqrt, Real.cos, Real.sin, Real.tan, Real.pi, maxf⟩ : libm ℝ)).get_ray 0.5 0.5
      = ⟨⟨0, 0, 0⟩, ⟨0, 0, -1⟩⟩ := by
    rw [main_camera_get_ray]
    norm_num
  have hray2 : (main_camera
      (⟨Real.sqrt, Real.cos, Real.sin, Real.tan, Real.pi, maxf⟩ : libm ℝ)).get_ray 0.65 0.5
      = ⟨⟨0, 0, 0⟩, ⟨0.6, 0, -1⟩⟩ := by
    rw [main_camera_get_ray]
    norm_num
  obtain ⟨hg1, hl1, hm1⟩ := centre_ray_misses
    (⟨Real.sqrt, Real.cos, Real.sin, Real.tan, Real.pi, maxf⟩ : libm ℝ) 0.001 maxf
  obtain ⟨hg2, hl2⟩ := shifted_ray_misses
    (⟨Real.sqrt, Real.cos, Real.sin, Real.tan, Real.pi, maxf⟩ : libm ℝ) 0.001 maxf
  obtain ⟨rec, hhit, hmat, hn, hfront, _, _⟩ := shifted_ray_hits_metal
    (⟨Real.sqrt, Real.cos, Real.sin, Real.tan, Real.pi, maxf⟩ : libm ℝ) rfl maxf hmax
  rw [hray1, hray2]
  have hdir : (⟨0.6, 0, -1⟩ : vec3 ℝ) ≠ 0 := fun h => by
    have h2 := congrArg vec3.e2 h
    simp at h2
  refine ⟨⟨rfl, ?_⟩, rfl, hg2, rec, ?_, hhit, hmat, ?_⟩
  · rcases hscene with h | h
    · rw [h, main_scene_eq, hitable_list_hit_cons_none _ _ _ _ _ _ hg1,
        hitable_list_hit_cons_none _ _ _ _ _ _ hl1, hitable_list_hit_single, hm1]
    · rw [h, hitable_list_hit_cons_none _ _ _ _ _ _ hg1, hitable_list_hit_single, hm1]
  · rcases hscene with h | h
    · rw [h, main_scene_eq, hitable_list_hit_cons_none _ _ _ _ _ _ hg2,
        hitable_list_hit_cons_none _ _ _ _ _ _ hl2, hitable_list_hit_single, hhit]
    · rw [h, hitable_list_hit_cons_none _ _ _ _ _ _ hg2, hitable_list_hit_single, hhit]
  · rw [hmat]
    exact metal_mirror_not_absorbed ⟨0.1, 0.1, 0.1⟩ _ rfl rng fuel
      ⟨⟨0, 0, 0⟩, ⟨0.6, 0, -1⟩⟩ rec i q j hq hdir hn hfront

/-- C15 (amended) at a concrete input: `MAXFLOAT = 3.4e38`, the scene of `main`
and the stream `0.5, 0.5, 0.5`. -/
theorem C15_metal_sphere_ray_witness :
    (1 : ℝ) ≤ 3.4e38
    ∧ ((main_scene : List (sphere ℝ)) = main_scene
        ∨ (main_scene : List (sphere ℝ)) = [ground_sphere, metal_sphere])
    ∧ random_in_unit_sphere (fun _ => (0.5 : ℝ)) 8 0 = some (⟨0, 0, 0⟩, 3)
    ∧ hitable_list.hit (⟨Real.sqrt, Real.cos, Real.sin, Real.tan, Real.pi, 3.4e38⟩ : libm ℝ)
        main_scene
        ((main_camera
          (⟨Real.sqrt, Real.cos, Real.sin, Real.tan, Real.pi, 3.4e38⟩ : libm ℝ)).get_ray 0.5 0.5)
        0.001 3.4e38 = none :=
  have hmax : (1 : ℝ) ≤ 3.4e38 := by norm_num
  have hq : random_in_unit_sphere (fun _ => (0.5 : ℝ)) 8 0 = some (⟨0, 0, 0⟩, 3) := by
    simp only [random_in_unit_sphere, vec3.squared_length]
    norm_num
    ext <;> simp
  ⟨hmax, Or.inl rfl, hq,
    (C15_metal_sphere_ray 3.4e38 main_scene (fun _ => 0.5) 8 ⟨0, 0, 0⟩ 0 ⟨0, 0, 0⟩ 3
      hmax (Or.inl rfl) hq).1.2⟩

end Lemmas

end Raytracer
